import Mathlib

/-!
# pipey: a named pipe served over HTTP

A verification development for `cmd/pipey/main.go`.  The Go code is embedded
shallowly: pure helpers become functions, operating-system calls take their
results from an explicit `World`, and the handler threads an explicit state
(response writer, log, trace of performed calls).  Deferred calls run when the
function returns and when it panics.  The two library computations whose
results the handler depends on are modelled exactly: the `float64` arithmetic
of `time.Duration.Seconds`, and the acceptance of a byte string by
`json.Unmarshal` into an empty interface.
-/

namespace Pipey

/-! ## Descriptor sets (`syscall.FdSet`, `FD_SET`, `FD_ISSET`) -/

/-- The `syscall.FdSet` of linux/amd64: `Bits [16]int64`.  A word is held as
its 64-bit two's-complement pattern, a natural number below `2 ^ 64`. -/
structure FdSet where
  Bits : List Nat
  size : Bits.length = 16
deriving DecidableEq

/-- The zero value `syscall.FdSet{}`. -/
def FdSet.empty : FdSet := ⟨List.replicate 16 0, by simp⟩

/-- Go array indexing `p.Bits[k]` for an `int` index: `none` is the run-time
panic "index out of range". -/
def FdSet.word (p : FdSet) (k : Int) : Option Nat :=
  if 0 ≤ k ∧ k < 16 then p.Bits[k.toNat]? else none

/-- The conversion `uint(i)` of a Go `int` on a 64-bit platform. -/
def toUint (i : Int) : Nat := (i % 2 ^ 64).toNat

/-- The shifted mask `1 << (uint(i) % 64)` as an `int64` bit pattern. -/
def mask (i : Int) : Nat := (1 <<< (toUint i % 64)) % 2 ^ 64

/-- `FD_SET(p, i)`: `p.Bits[i/64] |= 1 << (uint(i) % 64)`.  Go's `/` on `int`
truncates toward zero.  `none` is the index-out-of-range panic. -/
def FD_SET (p : FdSet) (i : Int) : Option FdSet :=
  match p.word (i.tdiv 64) with
  | none => none
  | some w => some ⟨p.Bits.set (i.tdiv 64).toNat (w ||| mask i), by simp [p.size]⟩

/-- `FD_ISSET(p, i)`: `(p.Bits[i/64] & (1 << (uint(i) % 64))) != 0`. -/
def FD_ISSET (p : FdSet) (i : Int) : Option Bool :=
  match p.word (i.tdiv 64) with
  | none => none
  | some w => some ((w &&& mask i) != 0)

/-! ## The timeout handed to `select`

`time.Duration` is an `int64` count of nanoseconds.  `Duration.Seconds` computes
in `float64`: `float64(d / Second) + float64(d % Second) / 1e9`.  The binary64
operations it needs are modelled exactly: a finite value is `m * 2 ^ e`, every
operation rounds the exact result to nearest, ties to even, with a 53-bit
significand.  All values that occur for an `int64` duration are far below the
overflow threshold, so infinities are not represented. -/

/-- Round-half-to-even of the rational `n / d` to an integer. -/
def roundHalfEven (n d : Nat) : Nat :=
  let q := n / d
  let r := n % d
  if 2 * r < d then q
  else if d < 2 * r then q + 1
  else if q % 2 = 0 then q else q + 1

/-- A finite binary64 value `m * 2 ^ e`. -/
structure F64 where
  m : Int
  e : Int
deriving DecidableEq, Repr

def bitLengthAux : Nat → Nat → Nat
  | 0, _ => 0
  | fuel + 1, n => if n = 0 then 0 else bitLengthAux fuel (n / 2) + 1

/-- The number of binary digits of `n` (`bits.Len`). -/
def bitLength (n : Nat) : Nat := bitLengthAux n n

/-- The integer `k` with `2 ^ k ≤ n / d < 2 ^ (k + 1)`, for positive `n` and `d`. -/
def floorLog2 (n d : Nat) : Int :=
  let k : Int := (bitLength n : Int) - (bitLength d : Int)
  if 0 ≤ k then (if d * 2 ^ k.toNat ≤ n then k else k - 1)
  else (if d ≤ n * 2 ^ (-k).toNat then k else k - 1)

/-- The exponent of the last place of the binary64 values around `n / d`:
`floorLog2 - 52`, but not below `-1074` (subnormal range). -/
def ulpExp (n d : Nat) : Int :=
  if floorLog2 n d - 52 < -1074 then -1074 else floorLog2 n d - 52

/-- The binary64 value nearest to `± n / d`, ties to even. -/
def roundF64 (neg : Bool) (n d : Nat) : F64 :=
  if n = 0 then ⟨0, 0⟩ else
  let e : Int := ulpExp n d
  let m : Nat := if 0 ≤ e then roundHalfEven n (d * 2 ^ e.toNat)
                 else roundHalfEven (n * 2 ^ (-e).toNat) d
  ⟨if neg then -(m : Int) else (m : Int), e⟩

/-- The conversion `float64(i)` of an integer. -/
def F64.ofInt (i : Int) : F64 := roundF64 (decide (i < 0)) i.natAbs 1

/-- The quotient `x / y` in binary64, for `y` other than zero. -/
def F64.div (x y : F64) : F64 :=
  let neg := decide (x.m < 0) != decide (y.m < 0)
  if y.e ≤ x.e then roundF64 neg (x.m.natAbs * 2 ^ (x.e - y.e).toNat) y.m.natAbs
  else roundF64 neg x.m.natAbs (y.m.natAbs * 2 ^ (y.e - x.e).toNat)

/-- The sum `x + y` in binary64. -/
def F64.add (x y : F64) : F64 :=
  let e0 := if x.e ≤ y.e then x.e else y.e
  let s : Int := x.m * 2 ^ (x.e - e0).toNat + y.m * 2 ^ (y.e - e0).toNat
  if 0 ≤ e0 then roundF64 (decide (s < 0)) (s.natAbs * 2 ^ e0.toNat) 1
  else roundF64 (decide (s < 0)) s.natAbs (2 ^ (-e0).toNat)

/-- The conversion `int64(x)`: truncation toward zero. -/
def F64.toInt64 (x : F64) : Int :=
  if 0 ≤ x.e then x.m * 2 ^ x.e.toNat else x.m.tdiv (2 ^ (-x.e).toNat)

/-- `time.Duration.Seconds`: `sec := d / Second; nsec := d % Second;
return float64(sec) + float64(nsec)/1e9`. -/
def Seconds (d : Int) : F64 :=
  let sec := d.tdiv 1000000000
  let nsec := d.tmod 1000000000
  F64.add (F64.ofInt sec) (F64.div (F64.ofInt nsec) (F64.ofInt 1000000000))

/-- `time.Duration.Microseconds`: `int64(d) / 1e3`. -/
def Microseconds (d : Int) : Int := d.tdiv 1000

/-- `syscall.Timeval` of linux/amd64. -/
structure Timeval where
  Sec : Int
  Usec : Int
deriving DecidableEq, Repr

/-- The `Timeval` the handler builds (lines 63-66):
`Sec: int64(timeoutDuration.Seconds())`,
`Usec: int64(timeoutDuration.Microseconds()) % 1e6`. -/
def mkTimeval (timeoutDuration : Int) : Timeval :=
  { Sec := (Seconds timeoutDuration).toInt64,
    Usec := (Microseconds timeoutDuration).tmod 1000000 }

/-- The value an `int64` operation keeps of the exact result `x`: arithmetic on
`int64` wraps around modulo `2 ^ 64 = 18446744073709551616` into the range from
`-2 ^ 63` to `2 ^ 63 - 1`, with `2 ^ 63 = 9223372036854775808`. -/
def wrapInt64 (x : Int) : Int :=
  (x + 9223372036854775808) % 18446744073709551616 - 9223372036854775808

/-- The duration `main` passes to `serveFromPipe` (line 136) for the value of
the `--timeout` flag: `time.Duration(timeout)*time.Second`, with
`time.Second = 1000000000`. -/
def flagDuration (timeout : Int) : Int := wrapInt64 (timeout * 1000000000)

/-- The rational value of a binary64 number. -/
def F64.toRat (x : F64) : ℚ := (x.m : ℚ) * (2 : ℚ) ^ x.e
/-! ## The JSON decoder of the standard library (`encoding/json`)

The handler only asks whether `json.Unmarshal(data, &jsonObj)`, with `jsonObj` an
empty `interface{}`, returns an error.  `Unmarshal` first runs the scanner over
the whole input (`checkValid`) and then decodes; decoding into an empty
interface can fail only when a number literal does not fit a `float64`. -/

abbrev Bytes := List UInt8

/-- The entries of the scanner's `parseState` stack. -/
inductive ParseState
  | parseObjectKey
  | parseObjectValue
  | parseArrayValue
deriving DecidableEq, Repr

/-- The values returned by the scanner's transition functions. -/
inductive ScanCode
  | scanContinue
  | scanBeginLiteral
  | scanBeginObject
  | scanObjectKey
  | scanObjectValue
  | scanEndObject
  | scanBeginArray
  | scanArrayValue
  | scanEndArray
  | scanSkipSpace
  | scanEnd
  | scanError
deriving DecidableEq, Repr

/-- The scanner's current transition function (`scanner.step`). -/
inductive StepFn
  | stateBeginValueOrEmpty
  | stateBeginValue
  | stateBeginStringOrEmpty
  | stateBeginString
  | stateEndValue
  | stateEndTop
  | stateInString
  | stateInStringEsc
  | stateInStringEscU
  | stateInStringEscU1
  | stateInStringEscU12
  | stateInStringEscU123
  | stateNeg
  | state1
  | state0
  | stateDot
  | stateDot0
  | stateE
  | stateESign
  | stateE0
  | stateT
  | stateTr
  | stateTru
  | stateF
  | stateFa
  | stateFal
  | stateFals
  | stateN
  | stateNu
  | stateNul
  | stateError
deriving DecidableEq, Repr

/-- The `scanner` of `encoding/json`: the pending transition function, whether
the top-level value has ended, the stack of open composites (innermost first)
and whether an error has been recorded. -/
structure Scanner where
  step : StepFn
  endTop : Bool
  parseState : List ParseState
  err : Bool
deriving DecidableEq, Repr

def maxNestingDepth : Nat := 10000

/-- `scanner.reset`. -/
def Scanner.reset : Scanner := ⟨.stateBeginValue, false, [], false⟩

/-- `scanner.error`: record the error and make every later step fail. -/
def Scanner.error (s : Scanner) : Scanner × ScanCode :=
  ({ s with step := .stateError, err := true }, .scanError)

/-- A transition that only replaces the pending transition function. -/
def Scanner.goto (s : Scanner) (f : StepFn) (code : ScanCode) : Scanner × ScanCode :=
  ({ s with step := f }, code)

/-- `scanner.pushParseState`, after the caller has set the next transition function. -/
def Scanner.pushParseState (s : Scanner) (f : StepFn) (newParseState : ParseState)
    (successState : ScanCode) : Scanner × ScanCode :=
  let s1 := { s with step := f, parseState := newParseState :: s.parseState }
  if s1.parseState.length ≤ maxNestingDepth then (s1, successState) else s1.error

/-- `scanner.popParseState`. -/
def Scanner.popParseState (s : Scanner) : Scanner :=
  let rest := s.parseState.tail
  if rest.length = 0 then { s with parseState := rest, step := .stateEndTop, endTop := true }
  else { s with parseState := rest, step := .stateEndValue }

def isSpace (c : UInt8) : Bool :=
  c ≤ 0x20 && (c == 0x20 || c == 0x09 || c == 0x0D || c == 0x0A)

def isDigit (c : UInt8) : Bool := 0x30 ≤ c && c ≤ 0x39

def isDigit19 (c : UInt8) : Bool := 0x31 ≤ c && c ≤ 0x39

def isHex (c : UInt8) : Bool :=
  (0x30 ≤ c && c ≤ 0x39) || (0x61 ≤ c && c ≤ 0x66) || (0x41 ≤ c && c ≤ 0x46)

/-- `stateEndTop`: only space may follow the top-level value.  A different byte
records an error that the next call reports; this call still returns `scanEnd`. -/
def stateEndTop (s : Scanner) (c : UInt8) : Scanner × ScanCode :=
  if !isSpace c then ((s.error).1, .scanEnd) else (s, .scanEnd)

/-- `stateEndValue`: after a complete value. -/
def stateEndValue (s : Scanner) (c : UInt8) : Scanner × ScanCode :=
  match s.parseState with
  | [] => stateEndTop { s with step := .stateEndTop, endTop := true } c
  | ps :: rest =>
    if isSpace c then s.goto .stateEndValue .scanSkipSpace
    else match ps with
      | .parseObjectKey =>
        if c == 0x3A then -- ':'
          ({ s with parseState := .parseObjectValue :: rest, step := .stateBeginValue },
            .scanObjectKey)
        else s.error
      | .parseObjectValue =>
        if c == 0x2C then -- ','
          ({ s with parseState := .parseObjectKey :: rest, step := .stateBeginString },
            .scanObjectValue)
        else if c == 0x7D then (s.popParseState, .scanEndObject) -- closing brace
        else s.error
      | .parseArrayValue =>
        if c == 0x2C then s.goto .stateBeginValue .scanArrayValue
        else if c == 0x5D then (s.popParseState, .scanEndArray) -- ']'
        else s.error

/-- `stateBeginValue`: at the beginning of a value. -/
def stateBeginValue (s : Scanner) (c : UInt8) : Scanner × ScanCode :=
  if isSpace c then (s, .scanSkipSpace)
  else if c == 0x7B then -- opening brace
    s.pushParseState .stateBeginStringOrEmpty .parseObjectKey .scanBeginObject
  else if c == 0x5B then -- '['
    s.pushParseState .stateBeginValueOrEmpty .parseArrayValue .scanBeginArray
  else if c == 0x22 then s.goto .stateInString .scanBeginLiteral -- '"'
  else if c == 0x2D then s.goto .stateNeg .scanBeginLiteral -- '-'
  else if c == 0x30 then s.goto .state0 .scanBeginLiteral -- '0'
  else if c == 0x74 then s.goto .stateT .scanBeginLiteral -- 't'
  else if c == 0x66 then s.goto .stateF .scanBeginLiteral -- 'f'
  else if c == 0x6E then s.goto .stateN .scanBeginLiteral -- 'n'
  else if isDigit19 c then s.goto .state1 .scanBeginLiteral
  else s.error

/-- `stateBeginValueOrEmpty`: after `[`. -/
def stateBeginValueOrEmpty (s : Scanner) (c : UInt8) : Scanner × ScanCode :=
  if isSpace c then (s, .scanSkipSpace)
  else if c == 0x5D then stateEndValue s c -- ']'
  else stateBeginValue s c

/-- `stateBeginString`: after a comma inside an object. -/
def stateBeginString (s : Scanner) (c : UInt8) : Scanner × ScanCode :=
  if isSpace c then (s, .scanSkipSpace)
  else if c == 0x22 then s.goto .stateInString .scanBeginLiteral -- '"'
  else s.error

/-- `stateBeginStringOrEmpty`: after the opening brace of an object. -/
def stateBeginStringOrEmpty (s : Scanner) (c : UInt8) : Scanner × ScanCode :=
  if isSpace c then (s, .scanSkipSpace)
  else if c == 0x7D then -- closing brace
    stateEndValue { s with parseState := .parseObjectValue :: s.parseState.tail } c
  else stateBeginString s c

/-- `stateInString`. -/
def stateInString (s : Scanner) (c : UInt8) : Scanner × ScanCode :=
  if c == 0x22 then s.goto .stateEndValue .scanContinue -- '"'
  else if c == 0x5C then s.goto .stateInStringEsc .scanContinue -- backslash
  else if c < 0x20 then s.error
  else (s, .scanContinue)

/-- `stateInStringEsc`: after a backslash inside a string. -/
def stateInStringEsc (s : Scanner) (c : UInt8) : Scanner × ScanCode :=
  if c == 0x62 || c == 0x66 || c == 0x6E || c == 0x72 || c == 0x74 || c == 0x5C
      || c == 0x2F || c == 0x22 then s.goto .stateInString .scanContinue
  else if c == 0x75 then s.goto .stateInStringEscU .scanContinue -- 'u'
  else s.error

/-- `stateInStringEscU`, `…U1`, `…U12`, `…U123`: one hexadecimal digit each. -/
def stateHex (s : Scanner) (c : UInt8) (next : StepFn) : Scanner × ScanCode :=
  if isHex c then s.goto next .scanContinue else s.error

/-- `state0`: after a leading `0` or, from `state1`, after the integer digits. -/
def state0 (s : Scanner) (c : UInt8) : Scanner × ScanCode :=
  if c == 0x2E then s.goto .stateDot .scanContinue -- '.'
  else if c == 0x65 || c == 0x45 then s.goto .stateE .scanContinue -- 'e', 'E'
  else stateEndValue s c

/-- `state1`: inside the integer digits of a number. -/
def state1 (s : Scanner) (c : UInt8) : Scanner × ScanCode :=
  if isDigit c then s.goto .state1 .scanContinue else state0 s c

/-- `stateNeg`: after a minus sign. -/
def stateNeg (s : Scanner) (c : UInt8) : Scanner × ScanCode :=
  if c == 0x30 then s.goto .state0 .scanContinue
  else if isDigit19 c then s.goto .state1 .scanContinue
  else s.error

/-- `stateDot`: after the decimal point. -/
def stateDot (s : Scanner) (c : UInt8) : Scanner × ScanCode :=
  if isDigit c then s.goto .stateDot0 .scanContinue else s.error

/-- `stateDot0`: inside the fraction digits. -/
def stateDot0 (s : Scanner) (c : UInt8) : Scanner × ScanCode :=
  if isDigit c then (s, .scanContinue)
  else if c == 0x65 || c == 0x45 then s.goto .stateE .scanContinue
  else stateEndValue s c

/-- `stateESign`: after the exponent marker and its optional sign. -/
def stateESign (s : Scanner) (c : UInt8) : Scanner × ScanCode :=
  if isDigit c then s.goto .stateE0 .scanContinue else s.error

/-- `stateE`: after the exponent marker. -/
def stateE (s : Scanner) (c : UInt8) : Scanner × ScanCode :=
  if c == 0x2B || c == 0x2D then s.goto .stateESign .scanContinue else stateESign s c

/-- `stateE0`: inside the exponent digits. -/
def stateE0 (s : Scanner) (c : UInt8) : Scanner × ScanCode :=
  if isDigit c then (s, .scanContinue) else stateEndValue s c

/-- The states inside `true`, `false` and `null`: exactly the byte `want` continues. -/
def stateLit (s : Scanner) (c want : UInt8) (next : StepFn) : Scanner × ScanCode :=
  if c == want then s.goto next .scanContinue else s.error

/-- The call `s.step(s, c)`. -/
def Scanner.run (s : Scanner) (c : UInt8) : Scanner × ScanCode :=
  match s.step with
  | .stateBeginValueOrEmpty => stateBeginValueOrEmpty s c
  | .stateBeginValue => stateBeginValue s c
  | .stateBeginStringOrEmpty => stateBeginStringOrEmpty s c
  | .stateBeginString => stateBeginString s c
  | .stateEndValue => stateEndValue s c
  | .stateEndTop => stateEndTop s c
  | .stateInString => stateInString s c
  | .stateInStringEsc => stateInStringEsc s c
  | .stateInStringEscU => stateHex s c .stateInStringEscU1
  | .stateInStringEscU1 => stateHex s c .stateInStringEscU12
  | .stateInStringEscU12 => stateHex s c .stateInStringEscU123
  | .stateInStringEscU123 => stateHex s c .stateInString
  | .stateNeg => stateNeg s c
  | .state1 => state1 s c
  | .state0 => state0 s c
  | .stateDot => stateDot s c
  | .stateDot0 => stateDot0 s c
  | .stateE => stateE s c
  | .stateESign => stateESign s c
  | .stateE0 => stateE0 s c
  | .stateT => stateLit s c 0x72 .stateTr
  | .stateTr => stateLit s c 0x75 .stateTru
  | .stateTru => stateLit s c 0x65 .stateEndValue
  | .stateF => stateLit s c 0x61 .stateFa
  | .stateFa => stateLit s c 0x6C .stateFal
  | .stateFal => stateLit s c 0x73 .stateFals
  | .stateFals => stateLit s c 0x65 .stateEndValue
  | .stateN => stateLit s c 0x75 .stateNu
  | .stateNu => stateLit s c 0x6C .stateNul
  | .stateNul => stateLit s c 0x6C .stateEndValue
  | .stateError => (s, .scanError)

/-- `scanner.eof`: `true` when the input may end here (`scanEnd`), `false` for
`scanError`. -/
def Scanner.eof (s : Scanner) : Bool :=
  if s.err then false
  else if s.endTop then true
  else
    let s1 := (s.run 0x20).1
    s1.endTop

/-- The loop of `checkValid`: feed every byte, stop at the first `scanError`. -/
def scanAll : Scanner → Bytes → Option Scanner
  | s, [] => some s
  | s, c :: rest =>
    match s.run c with
    | (_, .scanError) => none
    | (s1, _) => scanAll s1 rest

/-- `checkValid(data, scan) == nil`, which is also `json.Valid(data)`. -/
def checkValid (data : Bytes) : Bool :=
  match scanAll Scanner.reset data with
  | none => false
  | some s => s.eof

/-- Whether the scanner is inside a number literal. -/
def StepFn.inNumber : StepFn → Bool
  | .stateNeg | .state1 | .state0 | .stateDot | .stateDot0
  | .stateE | .stateESign | .stateE0 => true
  | _ => false

/-- The number literals of an input the scanner accepts, in order of appearance:
the maximal runs of bytes the scanner consumes inside a number (what the decoder's
`rescanLiteral` hands to `convertNumber`).  `cur` is the literal being read. -/
def numberLiteralsAux : Scanner → Bytes → Bytes → List Bytes
  | _, [], cur => if cur.isEmpty then [] else [cur]
  | s, c :: rest, cur =>
    let s1 := (s.run c).1
    if s1.step.inNumber then numberLiteralsAux s1 rest (cur ++ [c])
    else if cur.isEmpty then numberLiteralsAux s1 rest []
    else cur :: numberLiteralsAux s1 rest []

def numberLiterals (data : Bytes) : List Bytes :=
  numberLiteralsAux Scanner.reset data []

/-- What `strconv.ParseFloat` reads off a decimal literal: all mantissa digits
as one number, how many of them follow the decimal point, and the exponent. -/
structure Decimal where
  mant : Nat
  fracDigits : Nat
  sawDot : Bool
  inExp : Bool
  expNeg : Bool
  exp : Nat
deriving DecidableEq, Repr

/-- One byte of a number literal.  The exponent stops accumulating once it has
reached 10000, as in `strconv`: `if e < 10000 { e = e*10 + int(s[i]) - '0' }`. -/
def Decimal.feed (d : Decimal) (c : UInt8) : Decimal :=
  if d.inExp then
    if c == 0x2D then { d with expNeg := true }
    else if isDigit c then
      if d.exp < 10000 then { d with exp := d.exp * 10 + (c.toNat - 0x30) } else d
    else d
  else if c == 0x2E then { d with sawDot := true }
  else if c == 0x65 || c == 0x45 then { d with inExp := true }
  else if isDigit c then
    { d with mant := d.mant * 10 + (c.toNat - 0x30),
             fracDigits := if d.sawDot then d.fracDigits + 1 else d.fracDigits }
  else d

def readFloat (lit : Bytes) : Decimal :=
  lit.foldl Decimal.feed ⟨0, 0, false, false, false, 0⟩

/-- The midpoint `2 ^ 1024 - 2 ^ 970 = (2 ^ 54 - 1) * 2 ^ 970` between the largest
finite `float64` and `2 ^ 1024`: a decimal of at least this magnitude rounds to
infinity. -/
def float64Overflow : Nat := (2 ^ 54 - 1) <<< 970

/-- Whether `strconv.ParseFloat(lit, 64)` returns `ErrRange` for a JSON number
literal: its magnitude `mant * 10 ^ (±exp - fracDigits)` rounds to infinity. -/
def parseFloatRangeError (lit : Bytes) : Bool :=
  let d := readFloat lit
  let e10 : Int := (if d.expNeg then -(d.exp : Int) else (d.exp : Int)) - (d.fracDigits : Int)
  if 0 ≤ e10 then decide (float64Overflow ≤ d.mant * 10 ^ e10.toNat)
  else decide (float64Overflow * 10 ^ (-e10).toNat ≤ d.mant)

/-- `json.Unmarshal(data, &jsonObj) != nil` for an empty-interface target: the
scanner rejects the input (`checkValid`), or some number literal is out of the
`float64` range (`convertNumber` fails with an `UnmarshalTypeError`). -/
def unmarshalFails (data : Bytes) : Bool :=
  !checkValid data || (numberLiterals data).any parseFloatRangeError

/-- A Go `error` value; its text is all the program can observe. -/
structure GoError where
  msg : String
deriving DecidableEq, Repr

/-- The calls the program makes on the mutex, the file system and the pipe. -/
inductive Op
  | Lock
  | Unlock
  | RemoveAll (path : String)
  | Mkfifo (path : String) (mode : Nat)
  | OpenFile (name : String) (flag : Nat) (perm : Nat)
  | SetNonblock (fd : Int) (nonblocking : Bool)
  | Select (nfd : Int) (r : FdSet) (timeout : Option Timeval)
  | ReadAll (fd : Nat)
  | Close (fd : Nat)
deriving DecidableEq

/-- The results of the calls into the operating system.  Every call is made at
most once per run, so a result may depend on the arguments in any way. -/
structure World where
  /-- `os.RemoveAll(path)`: the error, if any. -/
  RemoveAll : String → Option GoError
  /-- `os.IsNotExist(err)`. -/
  IsNotExist : GoError → Bool
  /-- `syscall.Mkfifo(path, mode)`: the error, if any. -/
  Mkfifo : String → Nat → Option GoError
  /-- `os.OpenFile(name, flag, perm)`: the descriptor of the opened file, or the error. -/
  OpenFile : String → Nat → Nat → Except GoError Nat
  /-- `syscall.SetNonblock(fd, nonblocking)`: the error, if any. -/
  SetNonblock : Int → Bool → Option GoError
  /-- `syscall.Select(nfd, r, nil, nil, timeout)`: the set `r` as the call leaves
  it, and the error, if any. -/
  Select : Int → FdSet → Option Timeval → FdSet × Option GoError
  /-- `ioutil.ReadAll(pipe)`: the bytes read, and the error, if any. -/
  ReadAll : Nat → Bytes × Option GoError

inductive Level
  | info
  | error
deriving DecidableEq, Repr

/-- A line written by the logger: level, message and key/value pairs. -/
structure LogEntry where
  level : Level
  msg : String
  keyvals : List (String × String)
deriving DecidableEq, Repr

/-- The part of `*http.Request` the handler reads. -/
structure Request where
  RemoteAddr : String
  UserAgent : String

/-- The state of an `http.ResponseWriter`: the header map, the status line once
it has been written, and the body written so far. -/
structure ResponseWriter where
  header : List (String × String)
  status : Option Nat
  body : Bytes
deriving DecidableEq

def ResponseWriter.fresh : ResponseWriter := ⟨[], none, []⟩

/-- `w.Header().Set(key, value)`. -/
def ResponseWriter.setHeader (w : ResponseWriter) (key value : String) : ResponseWriter :=
  { w with header := (key, value) :: w.header.filter (fun kv => kv.1 != key) }

/-- `w.Header().Get(key)`. -/
def ResponseWriter.getHeader (w : ResponseWriter) (key : String) : Option String :=
  (w.header.find? (fun kv => kv.1 == key)).map Prod.snd

/-- `w.WriteHeader(code)`: only the first call writes the status line. -/
def ResponseWriter.WriteHeader (w : ResponseWriter) (code : Nat) : ResponseWriter :=
  match w.status with
  | some _ => w
  | none => { w with status := some code }

/-- `w.Write(b)`: writes the status line `200` first if none has been written. -/
def ResponseWriter.Write (w : ResponseWriter) (b : Bytes) : ResponseWriter :=
  let w1 := w.WriteHeader 200
  { w1 with body := w1.body ++ b }

/-- The bytes of an ASCII text. -/
def asciiBytes (s : String) : Bytes := s.toList.map (fun c => UInt8.ofNat c.toNat)

/-- `http.Error(w, error, code)`: plain-text content type, the status line, and
the text followed by a newline as the body. -/
def httpError (w : ResponseWriter) (error : String) (code : Nat) : ResponseWriter :=
  let w1 := w.setHeader "Content-Type" "text/plain; charset=utf-8"
  let w2 := w1.setHeader "X-Content-Type-Options" "nosniff"
  let w3 := w2.WriteHeader code
  w3.Write (asciiBytes error ++ [0x0A])

def StatusOK : Nat := 200
def StatusNotFound : Nat := 404
def StatusInternalServerError : Nat := 500

/-- `os.O_RDONLY` and `syscall.O_NONBLOCK` on linux/amd64. -/
def O_RDONLY : Nat := 0
def O_NONBLOCK : Nat := 0x800

/-- The conversion `int(pipe.Fd())` of a `uintptr` on a 64-bit platform. -/
def uintptrToInt (n : Nat) : Int :=
  if n % 2 ^ 64 < 2 ^ 63 then ((n % 2 ^ 64 : Nat) : Int) else ((n % 2 ^ 64 : Nat) : Int) - 2 ^ 64

/-! ## `createNamedPipe` -/

/-- `createNamedPipe(path)` (lines 20-25): the calls made, in order, and the
returned error. -/
def createNamedPipe (world : World) (path : String) : List Op × Option GoError :=
  match world.RemoveAll path with
  | some err =>
    if !world.IsNotExist err then ([Op.RemoveAll path], some err)
    else ([Op.RemoveAll path, Op.Mkfifo path 0o666], world.Mkfifo path 0o666)
  | none => ([Op.RemoveAll path, Op.Mkfifo path 0o666], world.Mkfifo path 0o666)

/-! ## `serveFromPipe` -/

/-- What a run of the handler has done so far: the response, the log and the
calls made, oldest first. -/
structure HState where
  w : ResponseWriter
  log : List LogEntry
  trace : List Op

def HState.init : HState := ⟨ResponseWriter.fresh, [], []⟩

def HState.op (s : HState) (o : Op) : HState := { s with trace := s.trace ++ [o] }

/-- `log.Infof(...)` with the message already formatted. -/
def HState.logInfo (s : HState) (msg : String) : HState :=
  { s with log := s.log ++ [⟨.info, msg, []⟩] }

/-- `log.Error(msg)`. -/
def HState.logError (s : HState) (msg : String) : HState :=
  { s with log := s.log ++ [⟨.error, msg, []⟩] }

/-- `log.Error(msg, "err", err)`. -/
def HState.logErr (s : HState) (msg : String) (err : GoError) : HState :=
  { s with log := s.log ++ [⟨.error, msg, [("err", err.msg)]⟩] }

/-- `http.Error(w, text, code)` on the run's response writer. -/
def HState.httpError (s : HState) (text : String) (code : Nat) : HState :=
  { s with w := Pipey.httpError s.w text code }

/-- How the handler function ends: by returning, or by a run-time panic (which
`net/http` recovers after the deferred calls have run). -/
inductive Exit
  | returned
  | panicked
deriving DecidableEq, Repr

/-- Lines 52-96: the handler once the pipe is open. -/
def servePipe (world : World) (timeoutDuration : Int) (pipe : Nat) (s : HState) :
    HState × Exit :=
  let fd := uintptrToInt pipe
  let s := s.op (.SetNonblock fd true)
  match world.SetNonblock fd true with
  | some err =>
    (((s.logErr "Failed to set non-blocking mode" err).httpError
      "Internal Server Error" StatusInternalServerError), .returned)
  | none =>
    match FD_SET FdSet.empty fd with
    | none => (s, .panicked)
    | some rfds =>
      let tv := mkTimeval timeoutDuration
      let s := s.op (.Select (fd + 1) rfds (some tv))
      match world.Select (fd + 1) rfds (some tv) with
      | (_, some err) =>
        (((s.logErr "Select error" err).httpError
          "Internal Server Error" StatusInternalServerError), .returned)
      | (rfds, none) =>
        match FD_ISSET rfds fd with
        | none => (s, .panicked)
        | some false =>
          (((s.logError "Timeout reading from pipe").httpError
            "Not Found" StatusNotFound), .returned)
        | some true =>
          let s := s.op (.ReadAll pipe)
          match world.ReadAll pipe with
          | (_, some err) =>
            (((s.logErr "Error reading from pipe" err).httpError
              "Internal Server Error" StatusInternalServerError), .returned)
          | (data, none) =>
            if unmarshalFails data then
              (((s.logError "Invalid JSON received from pipe").httpError
                "Internal Server Error" StatusInternalServerError), .returned)
            else
              let w1 := s.w.setHeader "Content-Type" "application/json"
              ({ s with w := w1.Write data }, .returned)

/-- Lines 40-50 and the deferred `pipe.Close()`: the handler while it holds `mu`. -/
def serveLocked (world : World) (pipePath : String) (timeoutDuration : Int) (r : Request)
    (s : HState) : HState × Exit :=
  let s := s.logInfo
    ("Received request from " ++ r.RemoteAddr ++ " with User-Agent " ++ r.UserAgent)
  let s := s.op (.OpenFile pipePath (O_RDONLY ||| O_NONBLOCK) 0o666)
  match world.OpenFile pipePath (O_RDONLY ||| O_NONBLOCK) 0o666 with
  | .error err =>
    (((s.logErr "Error opening pipe" err).httpError
      "Internal Server Error" StatusInternalServerError), .returned)
  | .ok pipe =>
    let (s, exit) := servePipe world timeoutDuration pipe s
    -- defer pipe.Close()
    (s.op (.Close pipe), exit)

/-- The handler returned by `serveFromPipe(pipePath, timeoutDuration)`, run on
one request: `mu.Lock()`, the body, and the deferred `mu.Unlock()`. -/
def serveFromPipe (world : World) (pipePath : String) (timeoutDuration : Int) (r : Request) :
    HState × Exit :=
  let s := HState.init.op .Lock
  let (s, exit) := serveLocked world pipePath timeoutDuration r s
  -- defer mu.Unlock()
  (s.op .Unlock, exit)

/-- The state of `mu` after one more call: `mu.Lock()` takes it, `mu.Unlock()`
frees it, other calls leave it alone. -/
def mutexAfter (held : Bool) : Op → Bool
  | .Lock => true
  | .Unlock => false
  | _ => held

/-- Whether `mu` is held after the calls in `t`, starting from an unlocked mutex. -/
def locked (t : List Op) : Bool := t.foldl mutexAfter false

/-- The calls that touch the pipe. -/
def Op.isPipeOp : Op → Bool
  | .OpenFile _ _ _ | .SetNonblock _ _ | .Select _ _ _ | .ReadAll _ | .Close _ => true
  | _ => false

/-- The first log line of every run (line 42). -/
def requestLine (r : Request) : LogEntry :=
  ⟨.info, "Received request from " ++ r.RemoteAddr ++ " with User-Agent " ++ r.UserAgent, []⟩

/-- The log line `log.Error(msg, "err", err)`. -/
def errLine (msg : String) (err : GoError) : LogEntry := ⟨.error, msg, [("err", err.msg)]⟩

/-- The response `http.Error` leaves on a fresh writer. -/
def errorResponse (text : String) (code : Nat) : ResponseWriter :=
  httpError ResponseWriter.fresh text code

/-- The response of the success path (lines 95-96) on a fresh writer. -/
def jsonResponse (data : Bytes) : ResponseWriter :=
  (ResponseWriter.fresh.setHeader "Content-Type" "application/json").Write data

/-- The run opens the pipe as descriptor `pipe`, switches it to non-blocking
mode and marks it in the descriptor set `rfds`, so that it goes on to `select`. -/
structure Waits (world : World) (pipePath : String) (pipe : Nat) (rfds : FdSet) : Prop where
  opened : world.OpenFile pipePath (O_RDONLY ||| O_NONBLOCK) 0o666 = .ok pipe
  nonblock : world.SetNonblock (uintptrToInt pipe) true = none
  marked : FD_SET FdSet.empty (uintptrToInt pipe) = some rfds

/-- The result of the readiness wait the handler makes (line 68). -/
def waitResult (world : World) (timeoutDuration : Int) (pipe : Nat) (rfds : FdSet) :
    FdSet × Option GoError :=
  world.Select (uintptrToInt pipe + 1) rfds (some (mkTimeval timeoutDuration))

/-- The run waits, finds the descriptor readable and reads `data` from the pipe
without error. -/
structure Reads (world : World) (pipePath : String) (timeoutDuration : Int) (pipe : Nat)
    (rfds rfds1 : FdSet) (data : Bytes) : Prop where
  waits : Waits world pipePath pipe rfds
  waited : waitResult world timeoutDuration pipe rfds = (rfds1, none)
  readable : FD_ISSET rfds1 (uintptrToInt pipe) = some true
  read : world.ReadAll pipe = (data, none)

/-- The ways through the handler, each with the state it leaves behind. -/
inductive Branch (world : World) (pipePath : String) (timeoutDuration : Int) (r : Request) :
    HState × Exit → Prop
  | openFailure (err : GoError)
      (hopen : world.OpenFile pipePath (O_RDONLY ||| O_NONBLOCK) 0o666 = .error err) :
      Branch world pipePath timeoutDuration r
        (⟨errorResponse "Internal Server Error" 500,
          [requestLine r, errLine "Error opening pipe" err],
          [.Lock, .OpenFile pipePath (O_RDONLY ||| O_NONBLOCK) 0o666, .Unlock]⟩, .returned)
  | nonblockFailure (pipe : Nat) (err : GoError)
      (hopen : world.OpenFile pipePath (O_RDONLY ||| O_NONBLOCK) 0o666 = .ok pipe)
      (hnb : world.SetNonblock (uintptrToInt pipe) true = some err) :
      Branch world pipePath timeoutDuration r
        (⟨errorResponse "Internal Server Error" 500,
          [requestLine r, errLine "Failed to set non-blocking mode" err],
          [.Lock, .OpenFile pipePath (O_RDONLY ||| O_NONBLOCK) 0o666,
           .SetNonblock (uintptrToInt pipe) true, .Close pipe, .Unlock]⟩, .returned)
  | setPanic (pipe : Nat)
      (hopen : world.OpenFile pipePath (O_RDONLY ||| O_NONBLOCK) 0o666 = .ok pipe)
      (hnb : world.SetNonblock (uintptrToInt pipe) true = none)
      (hset : FD_SET FdSet.empty (uintptrToInt pipe) = none) :
      Branch world pipePath timeoutDuration r
        (⟨ResponseWriter.fresh, [requestLine r],
          [.Lock, .OpenFile pipePath (O_RDONLY ||| O_NONBLOCK) 0o666,
           .SetNonblock (uintptrToInt pipe) true, .Close pipe, .Unlock]⟩, .panicked)
  | selectFailure (pipe : Nat) (rfds rfds1 : FdSet) (err : GoError)
      (hopen : world.OpenFile pipePath (O_RDONLY ||| O_NONBLOCK) 0o666 = .ok pipe)
      (hnb : world.SetNonblock (uintptrToInt pipe) true = none)
      (hset : FD_SET FdSet.empty (uintptrToInt pipe) = some rfds)
      (hsel : waitResult world timeoutDuration pipe rfds = (rfds1, some err)) :
      Branch world pipePath timeoutDuration r
        (⟨errorResponse "Internal Server Error" 500,
          [requestLine r, errLine "Select error" err],
          [.Lock, .OpenFile pipePath (O_RDONLY ||| O_NONBLOCK) 0o666,
           .SetNonblock (uintptrToInt pipe) true,
           .Select (uintptrToInt pipe + 1) rfds (some (mkTimeval timeoutDuration)),
           .Close pipe, .Unlock]⟩, .returned)
  | issetPanic (pipe : Nat) (rfds rfds1 : FdSet)
      (hopen : world.OpenFile pipePath (O_RDONLY ||| O_NONBLOCK) 0o666 = .ok pipe)
      (hnb : world.SetNonblock (uintptrToInt pipe) true = none)
      (hset : FD_SET FdSet.empty (uintptrToInt pipe) = some rfds)
      (hsel : waitResult world timeoutDuration pipe rfds = (rfds1, none))
      (hisset : FD_ISSET rfds1 (uintptrToInt pipe) = none) :
      Branch world pipePath timeoutDuration r
        (⟨ResponseWriter.fresh, [requestLine r],
          [.Lock, .OpenFile pipePath (O_RDONLY ||| O_NONBLOCK) 0o666,
           .SetNonblock (uintptrToInt pipe) true,
           .Select (uintptrToInt pipe + 1) rfds (some (mkTimeval timeoutDuration)),
           .Close pipe, .Unlock]⟩, .panicked)
  | timeout (pipe : Nat) (rfds rfds1 : FdSet)
      (hopen : world.OpenFile pipePath (O_RDONLY ||| O_NONBLOCK) 0o666 = .ok pipe)
      (hnb : world.SetNonblock (uintptrToInt pipe) true = none)
      (hset : FD_SET FdSet.empty (uintptrToInt pipe) = some rfds)
      (hsel : waitResult world timeoutDuration pipe rfds = (rfds1, none))
      (hisset : FD_ISSET rfds1 (uintptrToInt pipe) = some false) :
      Branch world pipePath timeoutDuration r
        (⟨errorResponse "Not Found" 404,
          [requestLine r, ⟨.error, "Timeout reading from pipe", []⟩],
          [.Lock, .OpenFile pipePath (O_RDONLY ||| O_NONBLOCK) 0o666,
           .SetNonblock (uintptrToInt pipe) true,
           .Select (uintptrToInt pipe + 1) rfds (some (mkTimeval timeoutDuration)),
           .Close pipe, .Unlock]⟩, .returned)
  | readFailure (pipe : Nat) (rfds rfds1 : FdSet) (data : Bytes) (err : GoError)
      (hopen : world.OpenFile pipePath (O_RDONLY ||| O_NONBLOCK) 0o666 = .ok pipe)
      (hnb : world.SetNonblock (uintptrToInt pipe) true = none)
      (hset : FD_SET FdSet.empty (uintptrToInt pipe) = some rfds)
      (hsel : waitResult world timeoutDuration pipe rfds = (rfds1, none))
      (hisset : FD_ISSET rfds1 (uintptrToInt pipe) = some true)
      (hread : world.ReadAll pipe = (data, some err)) :
      Branch world pipePath timeoutDuration r
        (⟨errorResponse "Internal Server Error" 500,
          [requestLine r, errLine "Error reading from pipe" err],
          [.Lock, .OpenFile pipePath (O_RDONLY ||| O_NONBLOCK) 0o666,
           .SetNonblock (uintptrToInt pipe) true,
           .Select (uintptrToInt pipe + 1) rfds (some (mkTimeval timeoutDuration)),
           .ReadAll pipe, .Close pipe, .Unlock]⟩, .returned)
  | invalidJSON (pipe : Nat) (rfds rfds1 : FdSet) (data : Bytes)
      (hopen : world.OpenFile pipePath (O_RDONLY ||| O_NONBLOCK) 0o666 = .ok pipe)
      (hnb : world.SetNonblock (uintptrToInt pipe) true = none)
      (hset : FD_SET FdSet.empty (uintptrToInt pipe) = some rfds)
      (hsel : waitResult world timeoutDuration pipe rfds = (rfds1, none))
      (hisset : FD_ISSET rfds1 (uintptrToInt pipe) = some true)
      (hread : world.ReadAll pipe = (data, none))
      (hjson : unmarshalFails data = true) :
      Branch world pipePath timeoutDuration r
        (⟨errorResponse "Internal Server Error" 500,
          [requestLine r, ⟨.error, "Invalid JSON received from pipe", []⟩],
          [.Lock, .OpenFile pipePath (O_RDONLY ||| O_NONBLOCK) 0o666,
           .SetNonblock (uintptrToInt pipe) true,
           .Select (uintptrToInt pipe + 1) rfds (some (mkTimeval timeoutDuration)),
           .ReadAll pipe, .Close pipe, .Unlock]⟩, .returned)
  | success (pipe : Nat) (rfds rfds1 : FdSet) (data : Bytes)
      (hopen : world.OpenFile pipePath (O_RDONLY ||| O_NONBLOCK) 0o666 = .ok pipe)
      (hnb : world.SetNonblock (uintptrToInt pipe) true = none)
      (hset : FD_SET FdSet.empty (uintptrToInt pipe) = some rfds)
      (hsel : waitResult world timeoutDuration pipe rfds = (rfds1, none))
      (hisset : FD_ISSET rfds1 (uintptrToInt pipe) = some true)
      (hread : world.ReadAll pipe = (data, none))
      (hjson : unmarshalFails data = false) :
      Branch world pipePath timeoutDuration r
        (⟨jsonResponse data, [requestLine r],
          [.Lock, .OpenFile pipePath (O_RDONLY ||| O_NONBLOCK) 0o666,
           .SetNonblock (uintptrToInt pipe) true,
           .Select (uintptrToInt pipe + 1) rfds (some (mkTimeval timeoutDuration)),
           .ReadAll pipe, .Close pipe, .Unlock]⟩, .returned)

/-! ## Concurrent requests

`net/http` runs every request in its own goroutine; the goroutines share the one
mutex `mu`.  A goroutine is modelled by the sequence of calls its handler makes
(its trace) and a position in it; the scheduler picks which goroutine makes its
next call.  `mu.Lock()` can only be made while `mu` is free: until then the
goroutine is blocked. -/

/-- The shared state: whether `mu` is locked, and for each request how many of
its calls have been made. -/
structure Sys where
  mu : Bool
  pc : List Nat
deriving DecidableEq, Repr

/-- No request has started. -/
def Sys.init (n : Nat) : Sys := ⟨false, List.replicate n 0⟩

/-- The next call of request `i`, if it has one left. -/
def nextOp (progs : List (List Op)) (s : Sys) (i : Nat) : Option Op :=
  match progs[i]?, s.pc[i]? with
  | some prog, some k => prog[k]?
  | _, _ => none

/-- Request `i` makes its next call.  `none`: the request has finished, or it is
blocked in `mu.Lock()`. -/
def Sys.step (progs : List (List Op)) (s : Sys) (i : Nat) : Option Sys :=
  match nextOp progs s i with
  | none => none
  | some .Lock => if s.mu then none else some ⟨true, s.pc.modify (· + 1) i⟩
  | some .Unlock => some ⟨false, s.pc.modify (· + 1) i⟩
  | some _ => some ⟨s.mu, s.pc.modify (· + 1) i⟩

/-- The steps of a schedule, in order; `none` if the schedule picks a request
that cannot move. -/
def Sys.run (progs : List (List Op)) (s : Sys) : List Nat → Option Sys
  | [] => some s
  | i :: rest =>
    match s.step progs i with
    | none => none
    | some s1 => Sys.run progs s1 rest

/-- Whether request `i` is between its `mu.Lock()` and its `mu.Unlock()`. -/
def holder (progs : List (List Op)) (s : Sys) (i : Nat) : Bool :=
  match progs[i]?, s.pc[i]? with
  | some prog, some k => locked (prog.take k)
  | _, _ => false

/-- The traces of the handler for a list of requests on one pipe, each request
with the results the operating system gives it. -/
def programs (reqs : List (World × Request)) (pipePath : String) (timeoutDuration : Int) :
    List (List Op) :=
  reqs.map (fun q => (serveFromPipe q.1 pipePath timeoutDuration q.2).1.trace)

/-- A trace that locks first, unlocks last and leaves the mutex alone in between. -/
def WellLocked (prog : List Op) : Prop :=
  ∃ mid, prog = .Lock :: mid ++ [.Unlock] ∧ ∀ o ∈ mid, o ≠ .Lock ∧ o ≠ .Unlock

/-- At most one request holds `mu`, and `mu` is locked exactly when one does. -/
def Inv (progs : List (List Op)) (s : Sys) : Prop :=
  (∀ i j, holder progs s i = true → holder progs s j = true → i = j) ∧
  (s.mu = true ↔ ∃ i, holder progs s i = true)

/-! ## Example worlds

Concrete results of the operating system, used to run the definitions. -/

/-- A world in which a writer has left `{"a":1}` in the pipe, opened as descriptor 5. -/
def worldReady : World where
  RemoveAll := fun _ => none
  IsNotExist := fun _ => false
  Mkfifo := fun _ _ => none
  OpenFile := fun _ _ _ => .ok 5
  SetNonblock := fun _ _ => none
  Select := fun _ rfds _ => (rfds, none)
  ReadAll := fun _ => ([0x7B, 0x22, 0x61, 0x22, 0x3A, 0x31, 0x7D], none)

/-- A world in which no writer has connected: `select` clears the descriptor set. -/
def worldIdle : World where
  RemoveAll := fun _ => none
  IsNotExist := fun _ => false
  Mkfifo := fun _ _ => none
  OpenFile := fun _ _ _ => .ok 5
  SetNonblock := fun _ _ => none
  Select := fun _ _ _ => (FdSet.empty, none)
  ReadAll := fun _ => ([], none)

/-- A world in which the pipe has been removed: opening it fails, and the error
text names the path. -/
def worldGone : World where
  RemoveAll := fun _ => none
  IsNotExist := fun _ => false
  Mkfifo := fun _ _ => none
  OpenFile := fun name _ _ => .error ⟨"open " ++ name ++ ": no such file or directory"⟩
  SetNonblock := fun _ _ => none
  Select := fun _ rfds _ => (rfds, none)
  ReadAll := fun _ => ([], none)

/-- A world in which the writer has left the bytes `hello` in the pipe. -/
def worldHello : World where
  RemoveAll := fun _ => none
  IsNotExist := fun _ => false
  Mkfifo := fun _ _ => none
  OpenFile := fun _ _ _ => .ok 7
  SetNonblock := fun _ _ => none
  Select := fun _ rfds _ => (rfds, none)
  ReadAll := fun _ => ([0x68, 0x65, 0x6C, 0x6C, 0x6F], none)

/-- A world in which the writer has left the bytes `1e400` in the pipe. -/
def worldHuge : World where
  RemoveAll := fun _ => none
  IsNotExist := fun _ => false
  Mkfifo := fun _ _ => none
  OpenFile := fun _ _ _ => .ok 5
  SetNonblock := fun _ _ => none
  Select := fun _ rfds _ => (rfds, none)
  ReadAll := fun _ => ([0x31, 0x65, 0x34, 0x30, 0x30], none)

/-- A world in which removing the stale entry is refused. -/
def worldDenied : World where
  RemoveAll := fun _ => some ⟨"permission denied"⟩
  IsNotExist := fun _ => false
  Mkfifo := fun _ _ => none
  OpenFile := fun _ _ _ => .ok 5
  SetNonblock := fun _ _ => none
  Select := fun _ rfds _ => (rfds, none)
  ReadAll := fun _ => ([], none)

/-- Two concurrent requests: one finds the pipe ready, the other finds it idle. -/
def twoRequests : List (World × Request) :=
  [(worldReady, ⟨"10.0.0.1:5", "a"⟩), (worldIdle, ⟨"10.0.0.2:6", "b"⟩)]

theorem mask_and_ne_zero (w k : Nat) (hk : k < 64) :
    ((w &&& (1 <<< k) % 2 ^ 64) != 0) = w.testBit k := by
  have h1 : (1 <<< k) % 2 ^ 64 = 2 ^ k := by
    rw [Nat.one_shiftLeft]
    exact Nat.mod_eq_of_lt (Nat.pow_lt_pow_right (by norm_num) hk)
  rw [h1]
  cases h : w.testBit k
  · have h0 : w &&& 2 ^ k = 0 := by
      apply Nat.eq_of_testBit_eq
      intro j
      by_cases hj : k = j
      · subst hj; simp [h]
      · simp [Nat.testBit_two_pow, hj]
    simp [h0]
  · have h2 : (w &&& 2 ^ k).testBit k = true := by simp [h, Nat.testBit_two_pow]
    have h3 : w &&& 2 ^ k ≠ 0 := by
      intro h0; rw [h0] at h2; simp at h2
    simpa using h3

theorem mask_or_testBit (w k m : Nat) (hk : k < 64) :
    (w ||| (1 <<< k) % 2 ^ 64).testBit m = (w.testBit m || decide (k = m)) := by
  have h1 : (1 <<< k) % 2 ^ 64 = 2 ^ k := by
    rw [Nat.one_shiftLeft]
    exact Nat.mod_eq_of_lt (Nat.pow_lt_pow_right (by norm_num) hk)
  rw [h1, Nat.testBit_or, Nat.testBit_two_pow]

theorem tdiv_natCast (n : Nat) : Int.tdiv (n : Int) 64 = ((n / 64 : Nat) : Int) := by
  rw [Int.tdiv_eq_ediv (by omega) (by norm_num)]; norm_cast

theorem word_natCast (p : FdSet) (n : Nat) (hn : n < 1024) :
    p.word (Int.tdiv (n : Int) 64) = some (p.Bits[n / 64]?.getD 0) := by
  have hlt : n / 64 < p.Bits.length := by rw [p.size]; omega
  rw [tdiv_natCast, FdSet.word, if_pos ⟨by omega, by omega⟩, Int.toNat_ofNat,
    List.getElem?_eq_getElem hlt, Option.getD_some]

theorem mask_natCast (n : Nat) : mask (n : Int) = (1 <<< (n % 64)) % 2 ^ 64 := by
  have h : toUint (n : Int) % 64 = n % 64 := by unfold toUint; omega
  rw [mask, h]

theorem FD_SET_natCast (p : FdSet) (n : Nat) (hn : n < 1024) :
    ∃ p', FD_SET p (n : Int) = some p' ∧
      p'.Bits = p.Bits.set (n / 64) (p.Bits[n / 64]?.getD 0 ||| (1 <<< (n % 64)) % 2 ^ 64) := by
  unfold FD_SET
  rw [word_natCast p n hn]
  refine ⟨_, rfl, ?_⟩
  simp only [tdiv_natCast, Int.toNat_ofNat, mask_natCast]

theorem FD_ISSET_natCast (p : FdSet) (n : Nat) (hn : n < 1024) :
    FD_ISSET p (n : Int) = some ((p.Bits[n / 64]?.getD 0).testBit (n % 64)) := by
  unfold FD_ISSET
  rw [word_natCast p n hn, mask_natCast]
  show some _ = some _
  rw [mask_and_ne_zero _ _ (Nat.mod_lt _ (by norm_num))]

theorem testBit_after_set (p : FdSet) (i j : Nat) (hi : i < 1024) :
    ((p.Bits.set (i / 64) (p.Bits[i / 64]?.getD 0 ||| (1 <<< (i % 64)) % 2 ^ 64))[j / 64]?.getD
      0).testBit (j % 64) = ((p.Bits[j / 64]?.getD 0).testBit (j % 64) || decide (i = j)) := by
  have hli : i / 64 < p.Bits.length := by rw [p.size]; omega
  rw [List.getElem?_set]
  by_cases hq : i / 64 = j / 64
  · rw [if_pos hq, if_pos hli, Option.getD_some,
      mask_or_testBit _ _ _ (Nat.mod_lt _ (by norm_num)), hq]
    congr 1
    apply decide_eq_decide.mpr
    omega
  · rw [if_neg hq]
    have hne : i ≠ j := fun h => hq (by rw [h])
    simp [hne]

/-- C10. For descriptor numbers `i`, `j` in `[0, 1024)`, neither `FD_SET(p, i)` nor
`FD_ISSET(p, j)` indexes outside the 16 words (both return normally), and after
`FD_SET(p, i)` the test `FD_ISSET(p, j)` is true exactly when `j = i` or it was
true before; on the empty set used by the handler it is true for `i` only. -/
theorem FD_SET_marks_exactly_one (p : FdSet) (i j : Int)
    (hi : 0 ≤ i ∧ i < 1024) (hj : 0 ≤ j ∧ j < 1024) :
    ∃ p' before after,
      FD_SET p i = some p' ∧ FD_ISSET p j = some before ∧ FD_ISSET p' j = some after ∧
      (after = true ↔ (j = i ∨ before = true)) ∧
      (p = FdSet.empty → before = false ∧ (after = true ↔ j = i)) := by
  obtain ⟨hi0, hi1⟩ := hi
  obtain ⟨hj0, hj1⟩ := hj
  lift i to Nat using hi0
  lift j to Nat using hj0
  have hi' : i < 1024 := by exact_mod_cast hi1
  have hj' : j < 1024 := by exact_mod_cast hj1
  obtain ⟨p', hset, hbits⟩ := FD_SET_natCast p i hi'
  have hafter := FD_ISSET_natCast p' j hj'
  rw [hbits, testBit_after_set p i j hi'] at hafter
  refine ⟨p', _, _, hset, FD_ISSET_natCast p j hj', hafter, ?_, ?_⟩
  · simp only [Bool.or_eq_true, decide_eq_true_eq, Nat.cast_inj]
    constructor
    · rintro (h | h)
      · exact Or.inr h
      · exact Or.inl h.symm
    · rintro (h | h)
      · exact Or.inr h.symm
      · exact Or.inl h
  · intro hp
    have hz : (p.Bits[j / 64]?.getD 0).testBit (j % 64) = false := by
      subst hp
      have h16 : j / 64 < 16 := by omega
      have hr : (FdSet.empty).Bits[j / 64]? = some 0 := by
        show (List.replicate 16 0)[j / 64]? = some 0
        rw [List.getElem?_replicate, if_pos h16]
      rw [hr]; simp
    rw [hz]
    refine ⟨rfl, ?_⟩
    simp only [Bool.false_or, decide_eq_true_eq, Nat.cast_inj]
    exact ⟨fun h => h.symm, fun h => h.symm⟩

/-- C10, at a concrete input: descriptor 3 set in the empty set, descriptor 70 tested. -/
theorem FD_SET_marks_exactly_one_witness :
    ∃ p' before after,
      FD_SET FdSet.empty 3 = some p' ∧ FD_ISSET FdSet.empty 70 = some before ∧
      FD_ISSET p' 70 = some after ∧
      (after = true ↔ ((70 : Int) = 3 ∨ before = true)) ∧
      (FdSet.empty = FdSet.empty → before = false ∧ (after = true ↔ (70 : Int) = 3)) :=
  FD_SET_marks_exactly_one FdSet.empty 3 70 (by decide) (by decide)

/-! ### Binary64 rounding -/

theorem bitLengthAux_spec (fuel n : Nat) (hf : n ≤ fuel) (hn : 0 < n) :
    n < 2 ^ bitLengthAux fuel n ∧ 2 ^ bitLengthAux fuel n ≤ 2 * n := by
  induction fuel generalizing n with
  | zero => omega
  | succ f ih =>
    have hne : n ≠ 0 := by omega
    simp only [bitLengthAux, if_neg hne]
    by_cases h1 : n / 2 = 0
    · have hn1 : n = 1 := by omega
      subst hn1
      cases f <;> simp [bitLengthAux]
    · obtain ⟨ih1, ih2⟩ := ih (n / 2) (by omega) (by omega)
      rw [pow_succ]
      constructor <;> omega

theorem bitLength_spec (n : Nat) (hn : 0 < n) :
    n < 2 ^ bitLength n ∧ 2 ^ bitLength n ≤ 2 * n :=
  bitLengthAux_spec n n (le_refl n) hn

theorem two_zpow_toNat (e : Int) (he : 0 ≤ e) : (2 : ℚ) ^ e.toNat = (2 : ℚ) ^ e := by
  lift e to Nat using he
  simp

/-- The exponent found by `floorLog2` is not above the binary logarithm. -/
theorem floorLog2_le (n d : Nat) (hn : 0 < n) (hd : 0 < d) :
    (2 : ℚ) ^ floorLog2 n d ≤ (n : ℚ) / d := by
  have hdq : (0 : ℚ) < d := by exact_mod_cast hd
  obtain ⟨hn1, hn2⟩ := bitLength_spec n hn
  obtain ⟨hd1, hd2⟩ := bitLength_spec d hd
  have hlow : (2 : ℚ) ^ ((bitLength n : Int) - (bitLength d : Int) - 1) ≤ (n : ℚ) / d := by
    rw [le_div_iff₀ hdq]
    have h2 : (2 : ℚ) ^ ((bitLength n : Int) - (bitLength d : Int) - 1)
        = (2 : ℚ) ^ (bitLength n) / (2 ^ (bitLength d) * 2) := by
      rw [zpow_sub₀ (by norm_num), zpow_sub₀ (by norm_num), zpow_natCast, zpow_natCast, zpow_one,
        div_div]
    rw [h2, div_mul_eq_mul_div, div_le_iff₀ (by positivity)]
    have hn2q : (2 : ℚ) ^ bitLength n ≤ 2 * n := by exact_mod_cast hn2
    have hd1q : (d : ℚ) < 2 ^ bitLength d := by exact_mod_cast hd1
    have hnq : (0 : ℚ) < n := by exact_mod_cast hn
    nlinarith [mul_le_mul hn2q (le_of_lt hd1q) (le_of_lt hdq) (by positivity : (0:ℚ) ≤ 2 * n)]
  unfold floorLog2
  simp only
  split_ifs with h0 h1 h2
  · rw [le_div_iff₀ hdq, ← two_zpow_toNat _ h0]
    have : ((d * 2 ^ ((bitLength n : Int) - (bitLength d : Int)).toNat : Nat) : ℚ) ≤ n := by
      exact_mod_cast h1
    push_cast at this
    linarith
  · exact hlow
  · have h0' : 0 ≤ -((bitLength n : Int) - (bitLength d : Int)) := by omega
    have hpow : (2 : ℚ) ^ ((bitLength n : Int) - (bitLength d : Int))
        = 1 / 2 ^ (-((bitLength n : Int) - (bitLength d : Int))) := by
      rw [zpow_neg]; simp
    rw [hpow, ← two_zpow_toNat _ h0', div_le_div_iff₀ (by positivity) hdq]
    have : ((d : Nat) : ℚ) ≤ ((n * 2 ^ (-((bitLength n : Int) - (bitLength d : Int))).toNat : Nat) : ℚ) := by
      exact_mod_cast h2
    push_cast at this
    linarith
  · exact hlow

theorem roundHalfEven_spec (n d : Nat) (hd : 0 < d) :
    n / d ≤ roundHalfEven n d ∧ 2 * (d * roundHalfEven n d) ≤ 2 * n + d := by
  have hdm := Nat.div_add_mod n d
  have hr := Nat.mod_lt n hd
  unfold roundHalfEven
  simp only
  split_ifs <;> refine ⟨by omega, ?_⟩ <;> (try rw [Nat.mul_succ]) <;> omega

theorem roundHalfEven_exact (t d : Nat) (hd : 0 < d) : roundHalfEven (t * d) d = t := by
  unfold roundHalfEven
  simp [Nat.mul_mod_left, hd, Nat.mul_div_cancel _ hd]

theorem ulpExp_le (n d : Nat) (hn : 0 < n) (hd : 0 < d) (K : Int) (hK : -1021 ≤ K)
    (h : (n : ℚ) / d < 2 ^ K) : ulpExp n d ≤ K - 53 := by
  have h1 := lt_of_le_of_lt (floorLog2_le n d hn hd) h
  have h2 : floorLog2 n d < K := (zpow_lt_zpow_iff_right₀ (by norm_num : (1 : ℚ) < 2)).mp h1
  unfold ulpExp
  split_ifs <;> omega

theorem two_zpow_neg_toNat (e : Int) (he : e < 0) :
    (2 : ℚ) ^ (-e).toNat * (2 : ℚ) ^ e = 1 := by
  rw [two_zpow_toNat _ (by omega), ← zpow_add₀ (by norm_num)]
  simp

/-- What `roundF64` returns for a positive ratio: the error is at most half a
unit in the last place, the result is not below any representable value that
does not exceed the ratio, and representable ratios are returned unchanged. -/
theorem roundF64_spec (n d : Nat) (hn : 0 < n) (hd : 0 < d) :
    ∃ m : Nat, roundF64 false n d = ⟨(m : Int), ulpExp n d⟩ ∧
      (m : ℚ) * 2 ^ ulpExp n d ≤ (n : ℚ) / d + 2 ^ ulpExp n d / 2 ∧
      (∀ T : Nat, (T : ℚ) * 2 ^ ulpExp n d ≤ (n : ℚ) / d → T ≤ m) ∧
      (∀ T : Nat, (T : ℚ) * 2 ^ ulpExp n d = (n : ℚ) / d → m = T) := by
  have hdq : (0 : ℚ) < d := by exact_mod_cast hd
  have hne : n ≠ 0 := by omega
  unfold roundF64
  simp only [if_neg hne, Bool.false_eq_true, if_false]
  by_cases he : 0 ≤ ulpExp n d
  · simp only [if_pos he]
    refine ⟨_, rfl, ?_, ?_, ?_⟩
    all_goals rw [← two_zpow_toNat _ he]
    all_goals generalize (ulpExp n d).toNat = k
    all_goals have hP : 0 < d * 2 ^ k := by positivity
    all_goals obtain ⟨hs1, hs2⟩ := roundHalfEven_spec n (d * 2 ^ k) hP
    · rw [← sub_le_iff_le_add, le_div_iff₀ hdq]
      have hq : ((2 * (d * 2 ^ k * roundHalfEven n (d * 2 ^ k)) : Nat) : ℚ)
          ≤ ((2 * n + d * 2 ^ k : Nat) : ℚ) := by exact_mod_cast hs2
      push_cast at hq
      linarith
    · intro T hT
      rw [le_div_iff₀ hdq] at hT
      have hT' : T * (d * 2 ^ k) ≤ n := by
        have : ((T * (d * 2 ^ k) : Nat) : ℚ) ≤ (n : ℚ) := by push_cast; linarith
        exact_mod_cast this
      exact le_trans ((Nat.le_div_iff_mul_le hP).mpr hT') hs1
    · intro T hT
      rw [eq_div_iff (ne_of_gt hdq)] at hT
      have hT' : T * (d * 2 ^ k) = n := by
        have : ((T * (d * 2 ^ k) : Nat) : ℚ) = (n : ℚ) := by push_cast; linarith
        exact_mod_cast this
      rw [← hT']
      exact roundHalfEven_exact T _ hP
  · simp only [if_neg he]
    have he' : ulpExp n d < 0 := by omega
    have hinv := two_zpow_neg_toNat _ he'
    refine ⟨_, rfl, ?_, ?_, ?_⟩
    all_goals generalize (2 : ℚ) ^ ulpExp n d = u at hinv ⊢
    all_goals generalize hk : (-ulpExp n d).toNat = k at hinv ⊢
    all_goals have hPq : (0 : ℚ) < 2 ^ k := by positivity
    all_goals have hu : u = 1 / 2 ^ k := by field_simp; linarith
    all_goals obtain ⟨hs1, hs2⟩ := roundHalfEven_spec (n * 2 ^ k) d hd
    all_goals subst hu
    · rw [← sub_le_iff_le_add, le_div_iff₀ hdq]
      have hq : ((2 * (d * roundHalfEven (n * 2 ^ k) d) : Nat) : ℚ)
          ≤ ((2 * (n * 2 ^ k) + d : Nat) : ℚ) := by exact_mod_cast hs2
      push_cast at hq
      have hx : ((roundHalfEven (n * 2 ^ k) d : ℚ) * (1 / 2 ^ k) - 1 / 2 ^ k / 2) * d
          = (2 * (d * roundHalfEven (n * 2 ^ k) d) - d) / (2 * 2 ^ k) := by
        field_simp; ring
      rw [hx, div_le_iff₀ (by positivity)]
      linarith
    · intro T hT
      rw [le_div_iff₀ hdq] at hT
      have hT' : T * d ≤ n * 2 ^ k := by
        have : ((T * d : Nat) : ℚ) ≤ ((n * 2 ^ k : Nat) : ℚ) := by
          push_cast
          have hx : (T : ℚ) * (1 / 2 ^ k) * d = (T * d) / 2 ^ k := by field_simp
          rw [hx, div_le_iff₀ hPq] at hT
          exact hT
        exact_mod_cast this
      exact le_trans ((Nat.le_div_iff_mul_le hd).mpr hT') hs1
    · intro T hT
      rw [eq_div_iff (ne_of_gt hdq)] at hT
      have hT' : T * d = n * 2 ^ k := by
        have : ((T * d : Nat) : ℚ) = ((n * 2 ^ k : Nat) : ℚ) := by
          push_cast
          have hx : (T : ℚ) * (1 / 2 ^ k) * d = (T * d) / 2 ^ k := by field_simp
          rw [hx, div_eq_iff (ne_of_gt hPq)] at hT
          exact hT
        exact_mod_cast this
      rw [← hT']
      exact roundHalfEven_exact T _ hd

theorem roundF64_zero (d : Nat) : roundF64 false 0 d = ⟨0, 0⟩ := by
  simp [roundF64]

/-- The quotient of two non-negative binary64 values is the rounding of their
exact ratio. -/
theorem F64.div_eq_round (x y : F64) (hx : 0 ≤ x.m) (hy : 0 < y.m) :
    ∃ n d : Nat, 0 < d ∧ F64.div x y = roundF64 false n d ∧
      (n : ℚ) / d = x.toRat / y.toRat ∧ (n = 0 ↔ x.m = 0) := by
  obtain ⟨mx, ex⟩ := x
  obtain ⟨my, ey⟩ := y
  simp only at hx hy
  lift mx to Nat using hx
  lift my to Nat using le_of_lt hy
  have hy' : 0 < my := by exact_mod_cast hy
  have hyq : (0 : ℚ) < my := by exact_mod_cast hy'
  have hneg : (decide ((mx : Int) < 0) != decide ((my : Int) < 0)) = false := by
    have h1 : ¬ ((mx : Int) < 0) := by omega
    have h2 : ¬ ((my : Int) < 0) := by omega
    simp [h1, h2]
  unfold F64.div F64.toRat
  simp only [hneg, Int.natAbs_ofNat]
  by_cases hle : ey ≤ ex
  · simp only [if_pos hle]
    refine ⟨_, _, hy', rfl, ?_, ?_⟩
    · push_cast
      rw [two_zpow_toNat _ (by omega), zpow_sub₀ (by norm_num),
        div_eq_div_iff (ne_of_gt hyq) (by positivity)]
      field_simp
      ring
    · simp
  · simp only [if_neg hle]
    refine ⟨_, _, by positivity, rfl, ?_, ?_⟩
    · push_cast
      rw [two_zpow_toNat _ (by omega), zpow_sub₀ (by norm_num),
        div_eq_div_iff (by positivity) (by positivity)]
      field_simp
      ring
    · simp

/-- The sum of two non-negative binary64 values is the rounding of their exact sum. -/
theorem F64.add_eq_round (x y : F64) (hx : 0 ≤ x.m) (hy : 0 ≤ y.m) :
    ∃ n d : Nat, 0 < d ∧ F64.add x y = roundF64 false n d ∧
      (n : ℚ) / d = x.toRat + y.toRat := by
  obtain ⟨mx, ex⟩ := x
  obtain ⟨my, ey⟩ := y
  simp only at hx hy
  lift mx to Nat using hx
  lift my to Nat using hy
  unfold F64.add F64.toRat
  simp only
  generalize he0 : (if ex ≤ ey then ex else ey) = e0
  have hex : e0 ≤ ex := by rw [← he0]; split_ifs <;> omega
  have hey : e0 ≤ ey := by rw [← he0]; split_ifs <;> omega
  have hs : (mx : Int) * 2 ^ (ex - e0).toNat + (my : Int) * 2 ^ (ey - e0).toNat
      = ((mx * 2 ^ (ex - e0).toNat + my * 2 ^ (ey - e0).toNat : Nat) : Int) := by push_cast; rfl
  have hnn : ¬ (((mx * 2 ^ (ex - e0).toNat + my * 2 ^ (ey - e0).toNat : Nat) : Int) < 0) := by
    omega
  rw [hs]
  simp only [hnn, decide_False, Int.natAbs_ofNat]
  have hxq : (mx : ℚ) * 2 ^ ex = mx * 2 ^ (ex - e0).toNat * 2 ^ e0 := by
    rw [two_zpow_toNat _ (by omega), mul_assoc, ← zpow_add₀ (by norm_num)]; simp
  have hyq : (my : ℚ) * 2 ^ ey = my * 2 ^ (ey - e0).toNat * 2 ^ e0 := by
    rw [two_zpow_toNat _ (by omega), mul_assoc, ← zpow_add₀ (by norm_num)]; simp
  by_cases h0 : 0 ≤ e0
  · simp only [if_pos h0]
    refine ⟨_, 1, by norm_num, rfl, ?_⟩
    push_cast
    rw [hxq, hyq, two_zpow_toNat _ h0]
    ring
  · simp only [if_neg h0]
    refine ⟨_, _, by positivity, rfl, ?_⟩
    have hinv := two_zpow_neg_toNat e0 (by omega)
    push_cast
    rw [hxq, hyq, div_eq_iff (by positivity)]
    linear_combination (-(mx : ℚ) * 2 ^ (ex - e0).toNat - (my : ℚ) * 2 ^ (ey - e0).toNat) * hinv

/-- `int64(x)` of a non-negative binary64 value is the integer part of its value. -/
theorem F64.toInt64_eq (x : F64) (hx : 0 ≤ x.m) (S : Nat) (h1 : (S : ℚ) ≤ x.toRat)
    (h2 : x.toRat < S + 1) : x.toInt64 = S := by
  obtain ⟨mx, ex⟩ := x
  simp only at hx
  lift mx to Nat using hx
  unfold F64.toRat at h1 h2
  unfold F64.toInt64
  simp only [Int.cast_natCast] at h1 h2 ⊢
  by_cases h0 : 0 ≤ ex
  · simp only [if_pos h0]
    rw [← two_zpow_toNat _ h0] at h1 h2
    have a1 : S ≤ mx * 2 ^ ex.toNat := by exact_mod_cast h1
    have a2 : mx * 2 ^ ex.toNat < S + 1 := by exact_mod_cast h2
    have : mx * 2 ^ ex.toNat = S := by omega
    exact_mod_cast this
  · simp only [if_neg h0]
    have hinv := two_zpow_neg_toNat ex (by omega)
    generalize (-ex).toNat = k at hinv ⊢
    have hP : 0 < 2 ^ k := by positivity
    have hPq : (0 : ℚ) < 2 ^ k := by positivity
    have hu : (2 : ℚ) ^ ex = 1 / 2 ^ k := by field_simp; linarith
    rw [hu] at h1 h2
    have a1 : S * 2 ^ k ≤ mx := by
      have : ((S * 2 ^ k : Nat) : ℚ) ≤ (mx : ℚ) := by
        push_cast
        have hx : (mx : ℚ) * (1 / 2 ^ k) = mx / 2 ^ k := by ring
        rw [hx, le_div_iff₀ hPq] at h1
        exact h1
      exact_mod_cast this
    have a2 : mx < (S + 1) * 2 ^ k := by
      have : (mx : ℚ) < (((S + 1) * 2 ^ k : Nat) : ℚ) := by
        push_cast
        have hx : (mx : ℚ) * (1 / 2 ^ k) = mx / 2 ^ k := by ring
        rw [hx, div_lt_iff₀ hPq] at h2
        exact h2
      exact_mod_cast this
    have hdiv : mx / 2 ^ k = S := by
      apply Nat.div_eq_of_lt_le
      · exact a1
      · exact a2
    rw [Int.tdiv_eq_ediv (by omega) (by positivity)]
    exact_mod_cast hdiv

/-- A ratio that is an integer below `2 ^ 53` is representable: rounding returns it. -/
theorem roundF64_exact (n d : Nat) (hn : 0 < n) (hd : 0 < d) (N : Nat)
    (hN : (n : ℚ) / d = N) (hlt : N < 2 ^ 53) :
    (roundF64 false n d).toRat = N ∧ 0 ≤ (roundF64 false n d).m := by
  obtain ⟨m, hm, _, _, h3⟩ := roundF64_spec n d hn hd
  have he : ulpExp n d ≤ 0 := by
    have hq : (n : ℚ) / d < 2 ^ (53 : Int) := by
      rw [hN]
      calc (N : ℚ) < 9007199254740992 := by exact_mod_cast hlt
        _ = 2 ^ (53 : Int) := by norm_num
    have := ulpExp_le n d hn hd 53 (by norm_num) hq
    omega
  have hT : ((N * 2 ^ (-ulpExp n d).toNat : Nat) : ℚ) * 2 ^ ulpExp n d = (n : ℚ) / d := by
    rw [hN]
    push_cast
    rw [two_zpow_toNat _ (by omega), mul_assoc, ← zpow_add₀ (by norm_num)]
    simp
  have hmT := h3 _ hT
  rw [hm]
  refine ⟨?_, by simp⟩
  unfold F64.toRat
  simp only [Int.cast_natCast]
  rw [hmT, hT, hN]

theorem ofInt_exact (N : Nat) (hlt : N < 2 ^ 53) :
    (F64.ofInt (N : Int)).toRat = N ∧ 0 ≤ (F64.ofInt (N : Int)).m := by
  have hneg : decide ((N : Int) < 0) = false := by
    have : ¬ ((N : Int) < 0) := by omega
    simp [this]
  unfold F64.ofInt
  rw [hneg, Int.natAbs_ofNat]
  rcases Nat.eq_zero_or_pos N with h0 | hpos
  · subst h0
    rw [roundF64_zero]
    simp [F64.toRat]
  · exact roundF64_exact N 1 hpos (by norm_num) N (by simp) hlt

theorem toRat_nonneg (x : F64) (hx : 0 ≤ x.m) : 0 ≤ x.toRat := by
  unfold F64.toRat
  have : (0 : ℚ) ≤ x.m := by exact_mod_cast hx
  positivity

/-- `int64(d.Seconds())` is the whole number of seconds of a non-negative
duration `d` below `2 ^ 24` seconds, and of every whole-second `int64` duration. -/
theorem Seconds_toInt64 (d : Nat) (hmax : d < 2 ^ 63)
    (h : d < 2 ^ 24 * 10 ^ 9 ∨ d % 10 ^ 9 = 0) :
    (Seconds (d : Int)).toInt64 = ((d / 10 ^ 9 : Nat) : Int) := by
  have hsec : (d : Int).tdiv 1000000000 = ((d / 10 ^ 9 : Nat) : Int) := by
    rw [Int.tdiv_eq_ediv (by omega) (by norm_num)]; norm_cast
  have hnsec : (d : Int).tmod 1000000000 = ((d % 10 ^ 9 : Nat) : Int) := by
    rw [Int.tmod_eq_emod (by omega) (by norm_num)]; norm_cast
  unfold Seconds
  simp only [hsec, hnsec]
  generalize hS : d / 10 ^ 9 = sec
  generalize hR : d % 10 ^ 9 = nsec
  have hR1 : nsec < 10 ^ 9 := by rw [← hR]; exact Nat.mod_lt _ (by norm_num)
  have hS1 : sec < 2 ^ 53 := by
    have : d / 10 ^ 9 < 2 ^ 53 := by
      apply Nat.div_lt_of_lt_mul
      calc d < 2 ^ 63 := hmax
        _ ≤ 10 ^ 9 * 2 ^ 53 := by norm_num
    rw [← hS]; exact this
  have h' : sec < 2 ^ 24 ∨ nsec = 0 := by
    rcases h with h | h
    · left
      rw [← hS]
      apply Nat.div_lt_of_lt_mul
      rw [Nat.mul_comm]; exact h
    · right; rw [← hR]; exact h
  obtain ⟨ha, ham⟩ := ofInt_exact sec hS1
  obtain ⟨hb, hbm⟩ := ofInt_exact nsec (lt_trans hR1 (by norm_num))
  have hg : F64.ofInt 1000000000 = ⟨8388608000000000, -23⟩ := by decide
  have hgr : (F64.ofInt 1000000000).toRat = 1000000000 := by
    rw [hg]; unfold F64.toRat; norm_num
  obtain ⟨n1, d1, hd1, hc, hq1, hz1⟩ :=
    F64.div_eq_round (F64.ofInt nsec) (F64.ofInt 1000000000) hbm (by rw [hg]; norm_num)
  rw [hb, hgr] at hq1
  have hbz : (F64.ofInt (nsec : Int)).m = 0 ↔ nsec = 0 := by
    constructor
    · intro hm0
      have : (F64.ofInt (nsec : Int)).toRat = 0 := by unfold F64.toRat; rw [hm0]; simp
      rw [hb] at this
      exact_mod_cast this
    · intro hn0
      subst hn0
      have : F64.ofInt ((0 : Nat) : Int) = ⟨0, 0⟩ := by decide
      rw [this]
  -- the quotient `c = float64(nsec) / 1e9`
  have hcspec : 0 ≤ (F64.div (F64.ofInt nsec) (F64.ofInt 1000000000)).m ∧
      (F64.div (F64.ofInt nsec) (F64.ofInt 1000000000)).toRat
        ≤ (nsec : ℚ) / 1000000000 + 2 ^ (-54 : Int) ∧
      (nsec = 0 → (F64.div (F64.ofInt nsec) (F64.ofInt 1000000000)).toRat = 0) := by
    rw [hc]
    rcases Nat.eq_zero_or_pos n1 with h0 | hpos
    · subst h0
      rw [roundF64_zero]
      refine ⟨le_refl _, ?_, fun _ => by simp [F64.toRat]⟩
      have : (0 : ℚ) ≤ (nsec : ℚ) / 1000000000 := by positivity
      have h2 : (0 : ℚ) < 2 ^ (-54 : Int) := by positivity
      simp only [F64.toRat, Int.cast_zero, zero_mul]
      linarith
    · obtain ⟨m, hm, hup, _, _⟩ := roundF64_spec n1 d1 hpos hd1
      have he : ulpExp n1 d1 ≤ -53 := by
        have hlt : (n1 : ℚ) / d1 < 2 ^ (0 : Int) := by
          rw [hq1, zpow_zero, div_lt_one (by norm_num)]
          exact_mod_cast hR1
        have := ulpExp_le n1 d1 hpos hd1 0 (by norm_num) hlt
        omega
      rw [hm]
      refine ⟨by simp, ?_, ?_⟩
      · simp only [F64.toRat, Int.cast_natCast]
        rw [hq1] at hup
        have hpow : (2 : ℚ) ^ ulpExp n1 d1 ≤ 2 ^ (-53 : Int) :=
          zpow_le_zpow_right₀ (by norm_num) he
        have h53 : (2 : ℚ) ^ (-53 : Int) = 1 / 9007199254740992 := by norm_num
        have h54 : (2 : ℚ) ^ (-54 : Int) = 1 / 18014398509481984 := by norm_num
        rw [h53] at hpow
        rw [h54]
        linarith
      · intro hn0
        have : n1 = 0 := hz1.mpr (hbz.mpr hn0)
        omega
  obtain ⟨hcm, hcup, hczero⟩ := hcspec
  have hc0 := toRat_nonneg _ hcm
  generalize F64.div (F64.ofInt nsec) (F64.ofInt 1000000000) = c at hcm hcup hczero hc0
  -- the sum `float64(sec) + c`
  obtain ⟨n2, d2, hd2, hs, hq2⟩ := F64.add_eq_round (F64.ofInt sec) c ham hcm
  rw [ha] at hq2
  rw [hs]
  rcases Nat.eq_zero_or_pos n2 with h0 | hpos
  · subst h0
    rw [roundF64_zero]
    have hsum : (sec : ℚ) + c.toRat = 0 := by rw [← hq2]; simp
    have hsq : (0 : ℚ) ≤ sec := by positivity
    have : (sec : ℚ) = 0 := by linarith
    have hsec0 : sec = 0 := by exact_mod_cast this
    subst hsec0
    decide
  · rcases h' with hsmall | hwhole
    · obtain ⟨m, hm, hup, hlow, _⟩ := roundF64_spec n2 d2 hpos hd2
      have hsq : (sec : ℚ) + 1 ≤ 2 ^ (24 : Int) := by
        have h1 : sec + 1 ≤ 16777216 := by omega
        calc (sec : ℚ) + 1 ≤ 16777216 := by exact_mod_cast h1
          _ = 2 ^ (24 : Int) := by norm_num
      have hfrac : (nsec : ℚ) / 1000000000 ≤ 999999999 / 1000000000 := by
        rw [div_le_div_iff₀ (by norm_num) (by norm_num)]
        have : (nsec : ℚ) ≤ 999999999 := by
          have : nsec ≤ 999999999 := by omega
          exact_mod_cast this
        linarith
      have h54 : (2 : ℚ) ^ (-54 : Int) = 1 / 18014398509481984 := by norm_num
      have h29 : (2 : ℚ) ^ (-29 : Int) = 1 / 536870912 := by norm_num
      have h24 : (2 : ℚ) ^ (24 : Int) = 16777216 := by norm_num
      rw [h54] at hcup
      rw [h24] at hsq
      have he : ulpExp n2 d2 ≤ -29 := by
        have hlt : (n2 : ℚ) / d2 < 2 ^ (24 : Int) := by rw [hq2, h24]; linarith
        have := ulpExp_le n2 d2 hpos hd2 24 (by norm_num) hlt
        omega
      have hpow : (2 : ℚ) ^ ulpExp n2 d2 ≤ 2 ^ (-29 : Int) :=
        zpow_le_zpow_right₀ (by norm_num) he
      rw [h29] at hpow
      rw [hq2] at hup hlow
      have hT : ((sec * 2 ^ (-ulpExp n2 d2).toNat : Nat) : ℚ) * 2 ^ ulpExp n2 d2 = sec := by
        push_cast
        rw [two_zpow_toNat _ (by omega), mul_assoc, ← zpow_add₀ (by norm_num)]
        simp
      have hTm := hlow _ (by rw [hT]; linarith)
      have hpos2 : (0 : ℚ) < 2 ^ ulpExp n2 d2 := by positivity
      rw [hm]
      apply F64.toInt64_eq _ (by simp)
      · simp only [F64.toRat, Int.cast_natCast]
        rw [← hT]
        apply mul_le_mul_of_nonneg_right _ (le_of_lt hpos2)
        exact_mod_cast hTm
      · simp only [F64.toRat, Int.cast_natCast]
        linarith
    · have hcz := hczero hwhole
      rw [hcz, add_zero] at hq2
      obtain ⟨hval, hm⟩ := roundF64_exact n2 d2 hpos hd2 sec hq2 hS1
      exact F64.toInt64_eq _ hm sec (by rw [hval]) (by rw [hval]; linarith)

/-! ### Number literals -/

/-- What `json.Unmarshal` accepts is syntactically valid JSON. -/
theorem checkValid_of_accepts (data : Bytes) (h : unmarshalFails data = false) :
    checkValid data = true := by
  unfold unmarshalFails at h
  simp only [Bool.or_eq_false_iff, Bool.not_eq_false'] at h
  exact h.1

/-! ### The paths through the handler -/

/-- Every run of the handler follows one of the branches. -/
theorem serveFromPipe_branch (world : World) (pipePath : String) (timeoutDuration : Int)
    (r : Request) :
    Branch world pipePath timeoutDuration r (serveFromPipe world pipePath timeoutDuration r) := by
  cases hopen : world.OpenFile pipePath (O_RDONLY ||| O_NONBLOCK) 0o666 with
  | error err =>
    have h := @Branch.openFailure world pipePath timeoutDuration r err hopen
    simpa [serveFromPipe, serveLocked, hopen, HState.op, HState.init, HState.logInfo,
      HState.logErr, HState.httpError, errorResponse, requestLine, errLine] using h
  | ok pipe =>
    cases hnb : world.SetNonblock (uintptrToInt pipe) true with
    | some err =>
      have h := @Branch.nonblockFailure world pipePath timeoutDuration r pipe err
        hopen hnb
      simpa [serveFromPipe, serveLocked, servePipe, hopen, hnb, HState.op, HState.init,
        HState.logInfo, HState.logErr, HState.httpError, errorResponse, requestLine,
        errLine] using h
    | none =>
      cases hset : FD_SET FdSet.empty (uintptrToInt pipe) with
      | none =>
        have h := @Branch.setPanic world pipePath timeoutDuration r pipe
          hopen hnb hset
        simpa [serveFromPipe, serveLocked, servePipe, hopen, hnb, hset, HState.op,
          HState.init, HState.logInfo, requestLine] using h
      | some rfds =>
        rcases hsel : waitResult world timeoutDuration pipe rfds with ⟨rfds1, serr⟩
        have hsel' := hsel
        unfold waitResult at hsel'
        cases serr with
        | some err =>
          have h := Branch.selectFailure (r := r) pipe rfds rfds1 err hopen hnb hset hsel
          simpa [serveFromPipe, serveLocked, servePipe, hopen, hnb, hset, hsel', HState.op,
            HState.init, HState.logInfo, HState.logErr, HState.httpError, errorResponse,
            requestLine, errLine] using h
        | none =>
          cases hisset : FD_ISSET rfds1 (uintptrToInt pipe) with
          | none =>
            have h := Branch.issetPanic (r := r) pipe rfds rfds1 hopen hnb hset hsel hisset
            simpa [serveFromPipe, serveLocked, servePipe, hopen, hnb, hset, hsel', hisset,
              HState.op, HState.init, HState.logInfo, requestLine] using h
          | some b =>
            cases b with
            | false =>
              have h := Branch.timeout (r := r) pipe rfds rfds1 hopen hnb hset hsel hisset
              simpa [serveFromPipe, serveLocked, servePipe, hopen, hnb, hset, hsel', hisset,
                HState.op, HState.init, HState.logInfo, HState.logError, HState.httpError,
                errorResponse, requestLine] using h
            | true =>
              rcases hread : world.ReadAll pipe with ⟨data, rerr⟩
              cases rerr with
              | some err =>
                have h := Branch.readFailure (r := r) pipe rfds rfds1 data err hopen hnb hset
                  hsel hisset hread
                simpa [serveFromPipe, serveLocked, servePipe, hopen, hnb, hset, hsel',
                  hisset, hread, HState.op, HState.init, HState.logInfo, HState.logErr,
                  HState.httpError, errorResponse, requestLine, errLine] using h
              | none =>
                cases hjson : unmarshalFails data with
                | true =>
                  have h := Branch.invalidJSON (r := r) pipe rfds rfds1 data hopen hnb hset hsel
                    hisset hread hjson
                  simpa [serveFromPipe, serveLocked, servePipe, hopen, hnb, hset, hsel',
                    hisset, hread, hjson, HState.op, HState.init, HState.logInfo,
                    HState.logError, HState.httpError, errorResponse, requestLine] using h
                | false =>
                  have h := Branch.success (r := r) pipe rfds rfds1 data hopen hnb hset hsel
                    hisset hread hjson
                  simpa [serveFromPipe, serveLocked, servePipe, hopen, hnb, hset, hsel',
                    hisset, hread, hjson, HState.op, HState.init, HState.logInfo,
                    jsonResponse, requestLine] using h

/-! ### The response -/

theorem errorResponse_status (text : String) (code : Nat) :
    (errorResponse text code).status = some code := by
  simp [errorResponse, httpError, ResponseWriter.Write, ResponseWriter.WriteHeader,
    ResponseWriter.setHeader, ResponseWriter.fresh]

theorem errorResponse_body (text : String) (code : Nat) :
    (errorResponse text code).body = asciiBytes text ++ [0x0A] := by
  simp [errorResponse, httpError, ResponseWriter.Write, ResponseWriter.WriteHeader,
    ResponseWriter.setHeader, ResponseWriter.fresh]

theorem errorResponse_contentType (text : String) (code : Nat) :
    (errorResponse text code).getHeader "Content-Type" = some "text/plain; charset=utf-8" := by
  simp [errorResponse, httpError, ResponseWriter.Write, ResponseWriter.WriteHeader,
    ResponseWriter.setHeader, ResponseWriter.fresh, ResponseWriter.getHeader, List.find?]

theorem jsonResponse_status (data : Bytes) : (jsonResponse data).status = some 200 := by
  simp [jsonResponse, ResponseWriter.Write, ResponseWriter.WriteHeader,
    ResponseWriter.setHeader, ResponseWriter.fresh]

theorem jsonResponse_contentType (data : Bytes) :
    (jsonResponse data).getHeader "Content-Type" = some "application/json" := by
  simp [jsonResponse, ResponseWriter.Write, ResponseWriter.WriteHeader,
    ResponseWriter.setHeader, ResponseWriter.fresh, ResponseWriter.getHeader, List.find?]

theorem fresh_contentType : ResponseWriter.fresh.getHeader "Content-Type" = none := by
  simp [ResponseWriter.fresh, ResponseWriter.getHeader]

/-! ### The state each path leaves behind -/

theorem run_openFailure {world : World} {pipePath : String} {d : Int} {r : Request}
    {err : GoError}
    (ho : world.OpenFile pipePath (O_RDONLY ||| O_NONBLOCK) 0o666 = .error err) :
    serveFromPipe world pipePath d r =
      (⟨errorResponse "Internal Server Error" 500,
        [requestLine r, errLine "Error opening pipe" err],
        [.Lock, .OpenFile pipePath (O_RDONLY ||| O_NONBLOCK) 0o666, .Unlock]⟩, .returned) := by
  have hb := serveFromPipe_branch world pipePath d r
  generalize serveFromPipe world pipePath d r = res at hb ⊢
  cases hb <;> simp_all

theorem run_setPanic {world : World} {pipePath : String} {d : Int} {r : Request}
    {pipe : Nat}
    (ho : world.OpenFile pipePath (O_RDONLY ||| O_NONBLOCK) 0o666 = .ok pipe)
    (hn : world.SetNonblock (uintptrToInt pipe) true = none)
    (hs : FD_SET FdSet.empty (uintptrToInt pipe) = none) :
    serveFromPipe world pipePath d r =
      (⟨ResponseWriter.fresh, [requestLine r],
        [.Lock, .OpenFile pipePath (O_RDONLY ||| O_NONBLOCK) 0o666,
         .SetNonblock (uintptrToInt pipe) true, .Close pipe, .Unlock]⟩, .panicked) := by
  have hb := serveFromPipe_branch world pipePath d r
  generalize serveFromPipe world pipePath d r = res at hb ⊢
  cases hb <;> simp_all

theorem run_selectFailure {world : World} {pipePath : String} {d : Int} {r : Request}
    {pipe : Nat} {rfds rfds1 : FdSet} {err : GoError}
    (hw : Waits world pipePath pipe rfds)
    (hsel : waitResult world d pipe rfds = (rfds1, some err)) :
    serveFromPipe world pipePath d r =
      (⟨errorResponse "Internal Server Error" 500,
        [requestLine r, errLine "Select error" err],
        [.Lock, .OpenFile pipePath (O_RDONLY ||| O_NONBLOCK) 0o666,
         .SetNonblock (uintptrToInt pipe) true,
         .Select (uintptrToInt pipe + 1) rfds (some (mkTimeval d)),
         .Close pipe, .Unlock]⟩, .returned) := by
  obtain ⟨ho, hn, hs⟩ := hw
  have hb := serveFromPipe_branch world pipePath d r
  generalize serveFromPipe world pipePath d r = res at hb ⊢
  cases hb <;> simp_all

theorem run_issetPanic {world : World} {pipePath : String} {d : Int} {r : Request}
    {pipe : Nat} {rfds rfds1 : FdSet}
    (hw : Waits world pipePath pipe rfds)
    (hsel : waitResult world d pipe rfds = (rfds1, none))
    (hi : FD_ISSET rfds1 (uintptrToInt pipe) = none) :
    serveFromPipe world pipePath d r =
      (⟨ResponseWriter.fresh, [requestLine r],
        [.Lock, .OpenFile pipePath (O_RDONLY ||| O_NONBLOCK) 0o666,
         .SetNonblock (uintptrToInt pipe) true,
         .Select (uintptrToInt pipe + 1) rfds (some (mkTimeval d)),
         .Close pipe, .Unlock]⟩, .panicked) := by
  obtain ⟨ho, hn, hs⟩ := hw
  have hb := serveFromPipe_branch world pipePath d r
  generalize serveFromPipe world pipePath d r = res at hb ⊢
  cases hb <;> simp_all

theorem run_timeout {world : World} {pipePath : String} {d : Int} {r : Request}
    {pipe : Nat} {rfds rfds1 : FdSet}
    (hw : Waits world pipePath pipe rfds)
    (hsel : waitResult world d pipe rfds = (rfds1, none))
    (hi : FD_ISSET rfds1 (uintptrToInt pipe) = some false) :
    serveFromPipe world pipePath d r =
      (⟨errorResponse "Not Found" 404,
        [requestLine r, ⟨.error, "Timeout reading from pipe", []⟩],
        [.Lock, .OpenFile pipePath (O_RDONLY ||| O_NONBLOCK) 0o666,
         .SetNonblock (uintptrToInt pipe) true,
         .Select (uintptrToInt pipe + 1) rfds (some (mkTimeval d)),
         .Close pipe, .Unlock]⟩, .returned) := by
  obtain ⟨ho, hn, hs⟩ := hw
  have hb := serveFromPipe_branch world pipePath d r
  generalize serveFromPipe world pipePath d r = res at hb ⊢
  cases hb <;> simp_all

theorem run_readFailure {world : World} {pipePath : String} {d : Int} {r : Request}
    {pipe : Nat} {rfds rfds1 : FdSet} {data : Bytes} {err : GoError}
    (hw : Waits world pipePath pipe rfds)
    (hsel : waitResult world d pipe rfds = (rfds1, none))
    (hi : FD_ISSET rfds1 (uintptrToInt pipe) = some true)
    (hread : world.ReadAll pipe = (data, some err)) :
    serveFromPipe world pipePath d r =
      (⟨errorResponse "Internal Server Error" 500,
        [requestLine r, errLine "Error reading from pipe" err],
        [.Lock, .OpenFile pipePath (O_RDONLY ||| O_NONBLOCK) 0o666,
         .SetNonblock (uintptrToInt pipe) true,
         .Select (uintptrToInt pipe + 1) rfds (some (mkTimeval d)),
         .ReadAll pipe, .Close pipe, .Unlock]⟩, .returned) := by
  obtain ⟨ho, hn, hs⟩ := hw
  have hb := serveFromPipe_branch world pipePath d r
  generalize serveFromPipe world pipePath d r = res at hb ⊢
  cases hb <;> simp_all

theorem run_invalidJSON {world : World} {pipePath : String} {d : Int} {r : Request}
    {pipe : Nat} {rfds rfds1 : FdSet} {data : Bytes}
    (hr : Reads world pipePath d pipe rfds rfds1 data)
    (hjson : unmarshalFails data = true) :
    serveFromPipe world pipePath d r =
      (⟨errorResponse "Internal Server Error" 500,
        [requestLine r, ⟨.error, "Invalid JSON received from pipe", []⟩],
        [.Lock, .OpenFile pipePath (O_RDONLY ||| O_NONBLOCK) 0o666,
         .SetNonblock (uintptrToInt pipe) true,
         .Select (uintptrToInt pipe + 1) rfds (some (mkTimeval d)),
         .ReadAll pipe, .Close pipe, .Unlock]⟩, .returned) := by
  obtain ⟨⟨ho, hn, hs⟩, hsel, hi, hread⟩ := hr
  have hb := serveFromPipe_branch world pipePath d r
  generalize serveFromPipe world pipePath d r = res at hb ⊢
  cases hb <;> simp_all

theorem run_success {world : World} {pipePath : String} {d : Int} {r : Request}
    {pipe : Nat} {rfds rfds1 : FdSet} {data : Bytes}
    (hr : Reads world pipePath d pipe rfds rfds1 data)
    (hjson : unmarshalFails data = false) :
    serveFromPipe world pipePath d r =
      (⟨jsonResponse data, [requestLine r],
        [.Lock, .OpenFile pipePath (O_RDONLY ||| O_NONBLOCK) 0o666,
         .SetNonblock (uintptrToInt pipe) true,
         .Select (uintptrToInt pipe + 1) rfds (some (mkTimeval d)),
         .ReadAll pipe, .Close pipe, .Unlock]⟩, .returned) := by
  obtain ⟨⟨ho, hn, hs⟩, hsel, hi, hread⟩ := hr
  have hb := serveFromPipe_branch world pipePath d r
  generalize serveFromPipe world pipePath d r = res at hb ⊢
  cases hb <;> simp_all

/-! ### Status and body (C1) -/

set_option exponentiation.threshold 512 in
/-- C2. The code at the bytes `1e400`: they are syntactically valid JSON
(`json.Valid` accepts them) and the handler reads them from the pipe, yet
`json.Unmarshal` cannot store the number in a `float64`, so the handler logs
`Invalid JSON received from pipe` and answers 500 with a plain-text content
type instead of `application/json`. -/
theorem contentType_valid_json_counterexample :
    Reads worldHuge "/tmp/pipe" 1000000000 5
      ⟨[32, 0, 0, 0, 0, 0, 0, 0, 0, 0, 0, 0, 0, 0, 0, 0], by decide⟩
      ⟨[32, 0, 0, 0, 0, 0, 0, 0, 0, 0, 0, 0, 0, 0, 0, 0], by decide⟩
      [0x31, 0x65, 0x34, 0x30, 0x30] ∧
    checkValid [0x31, 0x65, 0x34, 0x30, 0x30] = true ∧
    (serveFromPipe worldHuge "/tmp/pipe" 1000000000 ⟨"127.0.0.1:40000", "curl"⟩).1.w.getHeader
      "Content-Type" = some "text/plain; charset=utf-8" ∧
    (serveFromPipe worldHuge "/tmp/pipe" 1000000000 ⟨"127.0.0.1:40000", "curl"⟩).1.w.status
      = some 500 ∧
    (serveFromPipe worldHuge "/tmp/pipe" 1000000000 ⟨"127.0.0.1:40000", "curl"⟩).1.log =
      [requestLine ⟨"127.0.0.1:40000", "curl"⟩,
       ⟨.error, "Invalid JSON received from pipe", []⟩] := by
  have hr : Reads worldHuge "/tmp/pipe" 1000000000 5
      ⟨[32, 0, 0, 0, 0, 0, 0, 0, 0, 0, 0, 0, 0, 0, 0, 0], by decide⟩
      ⟨[32, 0, 0, 0, 0, 0, 0, 0, 0, 0, 0, 0, 0, 0, 0, 0], by decide⟩
      [0x31, 0x65, 0x34, 0x30, 0x30] := ⟨⟨rfl, rfl, by decide⟩, by decide, by decide, rfl⟩
  have hf : unmarshalFails [0x31, 0x65, 0x34, 0x30, 0x30] = true := by decide
  refine ⟨hr, by decide, ?_, ?_, ?_⟩
  · rw [run_invalidJSON hr hf]; exact errorResponse_contentType _ _
  · rw [run_invalidJSON hr hf]; exact errorResponse_status _ _
  · rw [run_invalidJSON hr hf]

/-- The half of the content-type rule the code keeps: the handler sets
`Content-Type: application/json` only on bytes it has read that are
syntactically valid JSON, and bytes read that are malformed (the empty byte
string among them) are answered with 500. -/
theorem contentType_json_only_if_valid (world : World) (pipePath : String) (d : Int)
    (r : Request) :
    ((serveFromPipe world pipePath d r).1.w.getHeader "Content-Type" = some "application/json" →
      ∃ pipe rfds rfds1 data, Reads world pipePath d pipe rfds rfds1 data ∧
        checkValid data = true) ∧
    (∀ pipe rfds rfds1 data, Reads world pipePath d pipe rfds rfds1 data →
      checkValid data = false →
      (serveFromPipe world pipePath d r).1.w.status = some 500) ∧
    checkValid [] = false := by
  refine ⟨?_, ?_, by decide⟩
  · intro hct
    have hb := serveFromPipe_branch world pipePath d r
    generalize serveFromPipe world pipePath d r = res at hb hct
    cases hb with
    | success pipe rfds rfds1 data hopen hnb hset hsel hisset hread hjson =>
      exact ⟨pipe, rfds, rfds1, data, ⟨⟨hopen, hnb, hset⟩, hsel, hisset, hread⟩,
        checkValid_of_accepts data hjson⟩
    | _ =>
      first
      | (rw [errorResponse_contentType] at hct; simp at hct)
      | (rw [fresh_contentType] at hct; simp at hct)
  · intro pipe rfds rfds1 data hr hbad
    have hf : unmarshalFails data = true := by simp [unmarshalFails, hbad]
    rw [run_invalidJSON hr hf]
    exact errorResponse_status _ _

/-! ### Lock and descriptor discipline (C4, C5) -/

theorem locked_append_of_no_mutex (pre mid : List Op) (h : ∀ o ∈ mid, o ≠ .Lock ∧ o ≠ .Unlock) :
    locked (pre ++ mid) = locked pre := by
  unfold locked
  rw [List.foldl_append]
  generalize List.foldl _ false pre = b
  induction mid generalizing b with
  | nil => rfl
  | cons o rest ih =>
    have ho := h o (List.mem_cons_self _ _)
    have hrest : ∀ o ∈ rest, o ≠ .Lock ∧ o ≠ .Unlock :=
      fun x hx => h x (List.mem_cons_of_mem _ hx)
    rw [List.foldl_cons]
    have hsame : mutexAfter b o = b := by
      cases o <;> first | exact absurd rfl ho.1 | exact absurd rfl ho.2 | rfl
    rw [hsame]
    exact ih hrest b

/-- In a trace `Lock :: mid ++ [Unlock]` whose middle part never touches the
mutex, the mutex is held before every call of the middle part and free at the end. -/
theorem locked_of_shape (mid : List Op) (h : ∀ o ∈ mid, o ≠ .Lock ∧ o ≠ .Unlock) :
    locked (.Lock :: mid ++ [.Unlock]) = false ∧
    ∀ pre o post, .Lock :: mid ++ [.Unlock] = pre ++ o :: post → o ≠ .Lock →
      locked pre = true := by
  constructor
  · have : locked ((.Lock :: mid) ++ [.Unlock]) = false := by
      unfold locked; rw [List.foldl_append]; rfl
    simpa using this
  · intro pre o post heq ho
    cases pre with
    | nil =>
      simp only [List.nil_append, List.cons_append, List.cons.injEq] at heq
      exact absurd heq.1.symm ho
    | cons p pre1 =>
      simp only [List.cons_append, List.cons.injEq] at heq
      obtain ⟨hp, hrest⟩ := heq
      subst hp
      rcases List.append_eq_append_iff.mp hrest with ⟨a, hpre, ha2⟩ | ⟨c, hc, _⟩
      · cases a with
        | nil =>
          rw [List.append_nil] at hpre
          rw [hpre]
          have := locked_append_of_no_mutex [.Lock] mid h
          simpa [locked] using this
        | cons x xs =>
          simp only [List.cons_append, List.cons.injEq] at ha2
          have := ha2.2
          simp at this
      · have hpre : ∀ x ∈ pre1, x ≠ Op.Lock ∧ x ≠ Op.Unlock := by
          intro x hx
          exact h x (by rw [hc]; exact List.mem_append_left _ hx)
        have := locked_append_of_no_mutex [.Lock] pre1 hpre
        simpa [locked] using this

/-- Every trace of the handler locks first, unlocks last and leaves the mutex
alone in between. -/
theorem serveFromPipe_wellLocked (world : World) (pipePath : String) (d : Int) (r : Request) :
    WellLocked (serveFromPipe world pipePath d r).1.trace := by
  have hb := serveFromPipe_branch world pipePath d r
  generalize serveFromPipe world pipePath d r = res at hb ⊢
  cases hb
  · exact ⟨[_], rfl, by simp⟩
  · exact ⟨[_, _, _], rfl, by simp⟩
  · exact ⟨[_, _, _], rfl, by simp⟩
  · exact ⟨[_, _, _, _], rfl, by simp⟩
  · exact ⟨[_, _, _, _], rfl, by simp⟩
  · exact ⟨[_, _, _, _], rfl, by simp⟩
  · exact ⟨[_, _, _, _, _], rfl, by simp⟩
  · exact ⟨[_, _, _, _, _], rfl, by simp⟩
  · exact ⟨[_, _, _, _, _], rfl, by simp⟩

/-- C4. The handler acquires `mu` exactly once, as its first call, and releases
it exactly once, as its last call, whatever the outcome (open failure, failure
to set non-blocking mode, select error, timeout, read failure, invalid JSON,
success, and the two panics): the calls in between never touch the mutex, the
mutex is free once the handler is over, and it is held before every call that
touches the pipe. -/
theorem serveFromPipe_lock_discipline (world : World) (pipePath : String) (d : Int)
    (r : Request) :
    (∃ mid, (serveFromPipe world pipePath d r).1.trace = .Lock :: mid ++ [.Unlock] ∧
      ∀ o ∈ mid, o ≠ .Lock ∧ o ≠ .Unlock) ∧
    (serveFromPipe world pipePath d r).1.trace.count .Lock = 1 ∧
    (serveFromPipe world pipePath d r).1.trace.count .Unlock = 1 ∧
    locked (serveFromPipe world pipePath d r).1.trace = false ∧
    (∀ pre o post, (serveFromPipe world pipePath d r).1.trace = pre ++ o :: post →
      o.isPipeOp = true → locked pre = true) := by
  obtain ⟨mid, ht, hmid⟩ := serveFromPipe_wellLocked world pipePath d r
  have hcount : ∀ o, (o = Op.Lock ∨ o = Op.Unlock) → mid.count o = 0 := by
    intro o ho
    apply List.count_eq_zero.mpr
    intro hmem
    rcases ho with ho | ho
    · exact (hmid o hmem).1 ho
    · exact (hmid o hmem).2 ho
  refine ⟨⟨mid, ht, hmid⟩, ?_, ?_, ?_, ?_⟩
  · rw [ht]
    simp [List.count_cons, List.count_append, hcount]
  · rw [ht]
    simp [List.count_cons, List.count_append, hcount]
  · rw [ht]; exact (locked_of_shape mid hmid).1
  · rw [ht]
    intro pre o post heq ho
    refine (locked_of_shape mid hmid).2 pre o post heq ?_
    intro hl
    rw [hl] at ho
    exact absurd ho (by decide)

/-- C5. When opening the pipe succeeds the descriptor is closed exactly once,
by the call just before the final `Unlock`, whatever happens in between
(panics included), and no other descriptor is closed; when opening fails the
run makes no call on any descriptor. -/
theorem serveFromPipe_close_discipline (world : World) (pipePath : String) (d : Int)
    (r : Request) :
    (∀ pipe, world.OpenFile pipePath (O_RDONLY ||| O_NONBLOCK) 0o666 = .ok pipe →
      (∃ ops, (serveFromPipe world pipePath d r).1.trace =
          .Lock :: .OpenFile pipePath (O_RDONLY ||| O_NONBLOCK) 0o666 :: ops ++
            [.Close pipe, .Unlock] ∧
        ∀ o ∈ ops, o = .SetNonblock (uintptrToInt pipe) true ∨
          (∃ rfds tv, o = .Select (uintptrToInt pipe + 1) rfds tv) ∨ o = .ReadAll pipe) ∧
      (serveFromPipe world pipePath d r).1.trace.count (.Close pipe) = 1 ∧
      (∀ fd, Op.Close fd ∈ (serveFromPipe world pipePath d r).1.trace → fd = pipe)) ∧
    (∀ err, world.OpenFile pipePath (O_RDONLY ||| O_NONBLOCK) 0o666 = .error err →
      (serveFromPipe world pipePath d r).1.trace =
        [.Lock, .OpenFile pipePath (O_RDONLY ||| O_NONBLOCK) 0o666, .Unlock]) := by
  constructor
  · intro pipe ho
    have hb := serveFromPipe_branch world pipePath d r
    generalize serveFromPipe world pipePath d r = res at hb ⊢
    cases hb with
    | openFailure err hopen => rw [ho] at hopen; cases hopen
    | nonblockFailure p err hopen hnb =>
      rw [ho] at hopen; cases hopen
      exact ⟨⟨[_], rfl, by simp⟩, by simp [List.count_cons], by simp⟩
    | setPanic p hopen hnb hset =>
      rw [ho] at hopen; cases hopen
      exact ⟨⟨[_], rfl, by simp⟩, by simp [List.count_cons], by simp⟩
    | selectFailure p rfds rfds1 err hopen hnb hset hsel =>
      rw [ho] at hopen; cases hopen
      exact ⟨⟨[_, _], rfl, by simp⟩, by simp [List.count_cons], by simp⟩
    | issetPanic p rfds rfds1 hopen hnb hset hsel hisset =>
      rw [ho] at hopen; cases hopen
      exact ⟨⟨[_, _], rfl, by simp⟩, by simp [List.count_cons], by simp⟩
    | timeout p rfds rfds1 hopen hnb hset hsel hisset =>
      rw [ho] at hopen; cases hopen
      exact ⟨⟨[_, _], rfl, by simp⟩, by simp [List.count_cons], by simp⟩
    | readFailure p rfds rfds1 data err hopen hnb hset hsel hisset hread =>
      rw [ho] at hopen; cases hopen
      exact ⟨⟨[_, _, _], rfl, by simp⟩, by simp [List.count_cons], by simp⟩
    | invalidJSON p rfds rfds1 data hopen hnb hset hsel hisset hread hjson =>
      rw [ho] at hopen; cases hopen
      exact ⟨⟨[_, _, _], rfl, by simp⟩, by simp [List.count_cons], by simp⟩
    | success p rfds rfds1 data hopen hnb hset hsel hisset hread hjson =>
      rw [ho] at hopen; cases hopen
      exact ⟨⟨[_, _, _], rfl, by simp⟩, by simp [List.count_cons], by simp⟩
  · intro err ho
    rw [run_openFailure ho]

/-! ### Mutual exclusion between concurrent requests (C3) -/

theorem locked_take_succ (prog : List Op) (k : Nat) (o : Op) (h : prog[k]? = some o) :
    locked (prog.take (k + 1)) = mutexAfter (locked (prog.take k)) o := by
  rw [List.take_succ, h]
  unfold locked
  rw [List.foldl_append]
  rfl

theorem wellLocked_before (prog : List Op) (hw : WellLocked prog) (k : Nat) (o : Op)
    (h : prog[k]? = some o) (ho : o ≠ .Lock) : locked (prog.take k) = true := by
  obtain ⟨mid, hp, hmid⟩ := hw
  have hk : k < prog.length := by
    rcases Nat.lt_or_ge k prog.length with hlt | hge
    · exact hlt
    · rw [List.getElem?_eq_none hge] at h; cases h
  have hsplit : prog = prog.take k ++ o :: prog.drop (k + 1) := by
    have hget : prog[k] = o := by
      rw [List.getElem?_eq_getElem hk] at h
      exact Option.some.inj h
    rw [← hget, ← List.drop_eq_getElem_cons hk, List.take_append_drop]
  rw [hp] at hsplit
  have := (locked_of_shape mid hmid).2 _ o _ hsplit ho
  rw [hp]
  exact this

theorem holder_init (progs : List (List Op)) (n i : Nat) :
    holder progs (Sys.init n) i = false := by
  unfold holder Sys.init
  cases hp : progs[i]? with
  | none => rfl
  | some prog =>
    cases hk : (List.replicate n 0)[i]? with
    | none => rfl
    | some k =>
      have : k = 0 := by
        rw [List.getElem?_replicate] at hk
        split_ifs at hk
        exact (Option.some.inj hk).symm
      subst this
      rfl

theorem nextOp_some {progs : List (List Op)} {s : Sys} {i : Nat} {o : Op}
    (h : nextOp progs s i = some o) :
    ∃ prog k, progs[i]? = some prog ∧ s.pc[i]? = some k ∧ prog[k]? = some o := by
  unfold nextOp at h
  cases hp : progs[i]? with
  | none => rw [hp] at h; cases h
  | some prog =>
    cases hk : s.pc[i]? with
    | none => rw [hp, hk] at h; cases h
    | some k =>
      rw [hp, hk] at h
      exact ⟨prog, k, rfl, rfl, h⟩

theorem holder_modify_ne (progs : List (List Op)) (s : Sys) (m : Bool) (i j : Nat)
    (hne : j ≠ i) : holder progs ⟨m, s.pc.modify (· + 1) i⟩ j = holder progs s j := by
  unfold holder
  simp only
  rw [List.getElem?_modify_ne _ _ (Ne.symm hne)]

theorem holder_modify_eq (progs : List (List Op)) (s : Sys) (m : Bool) (i : Nat)
    (prog : List Op) (k : Nat) (hp : progs[i]? = some prog) (hk : s.pc[i]? = some k) :
    holder progs ⟨m, s.pc.modify (· + 1) i⟩ i = locked (prog.take (k + 1)) := by
  unfold holder
  simp only
  rw [List.getElem?_modify_eq, hp, hk]
  rfl

theorem holder_eq (progs : List (List Op)) (s : Sys) (i : Nat)
    (prog : List Op) (k : Nat) (hp : progs[i]? = some prog) (hk : s.pc[i]? = some k) :
    holder progs s i = locked (prog.take k) := by
  unfold holder
  rw [hp, hk]

/-- A request that is about to make a call other than `mu.Lock()` holds `mu`. -/
theorem holder_of_nextOp (progs : List (List Op)) (hwl : ∀ prog ∈ progs, WellLocked prog)
    (s : Sys) (i : Nat) (o : Op) (h : nextOp progs s i = some o) (ho : o ≠ .Lock) :
    holder progs s i = true := by
  obtain ⟨prog, k, hp, hk, hop⟩ := nextOp_some h
  rw [holder_eq progs s i prog k hp hk]
  have hmem : prog ∈ progs := List.getElem?_mem hp
  exact wellLocked_before prog (hwl prog hmem) k o hop ho

theorem inv_step (progs : List (List Op)) (hwl : ∀ prog ∈ progs, WellLocked prog)
    (s s1 : Sys) (i : Nat) (hinv : Inv progs s) (hstep : s.step progs i = some s1) :
    Inv progs s1 := by
  obtain ⟨huniq, hmu⟩ := hinv
  unfold Sys.step at hstep
  cases hn : nextOp progs s i with
  | none => rw [hn] at hstep; cases hstep
  | some o =>
    obtain ⟨prog, k, hp, hk, hop⟩ := nextOp_some hn
    have hnew := locked_take_succ prog k o hop
    rw [hn] at hstep
    by_cases hL : o = .Lock
    · subst hL
      simp only at hstep
      by_cases hm : s.mu = true
      · rw [if_pos hm] at hstep; cases hstep
      · rw [if_neg hm] at hstep
        have hs1 := (Option.some.inj hstep).symm
        subst hs1
        have hnone : ∀ j, holder progs s j = false := by
          intro j
          cases hj : holder progs s j with
          | false => rfl
          | true => exact absurd (hmu.mpr ⟨j, hj⟩) hm
        have hi : holder progs ⟨true, s.pc.modify (· + 1) i⟩ i = true := by
          rw [holder_modify_eq progs s true i prog k hp hk, hnew]
          rfl
        have hother : ∀ j, holder progs ⟨true, s.pc.modify (· + 1) i⟩ j = true → j = i := by
          intro j hj
          by_contra hne
          rw [holder_modify_ne progs s true i j hne, hnone j] at hj
          cases hj
        exact ⟨fun a b ha hb => (hother a ha).trans (hother b hb).symm,
          ⟨fun _ => ⟨i, hi⟩, fun _ => rfl⟩⟩
    · have hheld : holder progs s i = true := holder_of_nextOp progs hwl s i o hn hL
      by_cases hU : o = .Unlock
      · subst hU
        simp only at hstep
        have hs1 := (Option.some.inj hstep).symm
        subst hs1
        have hnone : ∀ j, holder progs ⟨false, s.pc.modify (· + 1) i⟩ j = false := by
          intro j
          by_cases hji : j = i
          · subst hji
            rw [holder_modify_eq progs s false j prog k hp hk, hnew]
            rfl
          · rw [holder_modify_ne progs s false i j hji]
            cases hj : holder progs s j with
            | false => rfl
            | true => exact absurd (huniq j i hj hheld) hji
        refine ⟨fun a b ha _ => ?_, ⟨fun h => ?_, fun ⟨j, hj⟩ => ?_⟩⟩
        · rw [hnone a] at ha; cases ha
        · cases h
        · rw [hnone j] at hj; cases hj
      · have hs1 : s1 = ⟨s.mu, s.pc.modify (· + 1) i⟩ := by
          cases o <;>
            first | exact absurd rfl hL | exact absurd rfl hU | exact (Option.some.inj hstep).symm
        subst hs1
        have hsame : ∀ j, holder progs ⟨s.mu, s.pc.modify (· + 1) i⟩ j = holder progs s j := by
          intro j
          by_cases hji : j = i
          · subst hji
            rw [holder_modify_eq progs s s.mu j prog k hp hk, hnew,
              holder_eq progs s j prog k hp hk]
            cases o <;> first | exact absurd rfl hL | exact absurd rfl hU | rfl
          · exact holder_modify_ne progs s s.mu i j hji
        refine ⟨fun a b ha hb => huniq a b (by rw [← hsame a]; exact ha)
          (by rw [← hsame b]; exact hb), ?_⟩
        show s.mu = true ↔ _
        rw [hmu]
        exact ⟨fun ⟨j, hj⟩ => ⟨j, by rw [hsame j]; exact hj⟩,
          fun ⟨j, hj⟩ => ⟨j, by rw [← hsame j]; exact hj⟩⟩

theorem inv_run (progs : List (List Op)) (hwl : ∀ prog ∈ progs, WellLocked prog)
    (schedule : List Nat) (s s1 : Sys) (hinv : Inv progs s)
    (hrun : Sys.run progs s schedule = some s1) : Inv progs s1 := by
  induction schedule generalizing s with
  | nil =>
    simp only [Sys.run] at hrun
    rw [← Option.some.inj hrun]; exact hinv
  | cons i rest ih =>
    simp only [Sys.run] at hrun
    cases hstep : s.step progs i with
    | none => rw [hstep] at hrun; cases hrun
    | some s2 =>
      rw [hstep] at hrun
      exact ih s2 (inv_step progs hwl s s2 i hinv hstep) hrun

theorem programs_wellLocked (reqs : List (World × Request)) (pipePath : String) (d : Int) :
    ∀ prog ∈ programs reqs pipePath d, WellLocked prog := by
  intro prog hmem
  unfold programs at hmem
  obtain ⟨q, _, hq⟩ := List.mem_map.mp hmem
  rw [← hq]
  exact serveFromPipe_wellLocked q.1 pipePath d q.2

/-- C3. Concurrent requests against one pipe never interleave their reads.  In
every state that any number of handler invocations can reach under any
schedule: at most one request is between its `mu.Lock()` and its `mu.Unlock()`,
and `mu` is locked exactly when one is; a request whose next call opens, waits
on, reads or closes the pipe is that one request, so no other request is in
the middle of its calls on the pipe; and while one request holds `mu`, every
other request is either finished or at its `mu.Lock()`, where it cannot move. -/
theorem concurrent_requests_exclusive (reqs : List (World × Request)) (pipePath : String)
    (d : Int) (schedule : List Nat) (s : Sys)
    (hrun : Sys.run (programs reqs pipePath d) (Sys.init reqs.length) schedule = some s) :
    (∀ i j, holder (programs reqs pipePath d) s i = true →
      holder (programs reqs pipePath d) s j = true → i = j) ∧
    (s.mu = true ↔ ∃ i, holder (programs reqs pipePath d) s i = true) ∧
    (∀ i o, nextOp (programs reqs pipePath d) s i = some o → o.isPipeOp = true →
      holder (programs reqs pipePath d) s i = true ∧
      ∀ j, j ≠ i → holder (programs reqs pipePath d) s j = false) ∧
    (∀ i j, holder (programs reqs pipePath d) s i = true → j ≠ i →
      nextOp (programs reqs pipePath d) s j = none ∨
      (nextOp (programs reqs pipePath d) s j = some .Lock ∧
        Sys.step (programs reqs pipePath d) s j = none)) := by
  have hwl := programs_wellLocked reqs pipePath d
  have hinit : Inv (programs reqs pipePath d) (Sys.init reqs.length) :=
    ⟨fun i _ hi _ => (by rw [holder_init] at hi; cases hi),
     ⟨fun h => (by cases h), fun ⟨i, hi⟩ => (by rw [holder_init] at hi; cases hi)⟩⟩
  obtain ⟨huniq, hmu⟩ := inv_run _ hwl schedule _ s hinit hrun
  refine ⟨huniq, hmu, ?_, ?_⟩
  · intro i o hn hpipe
    have hne : o ≠ .Lock := by
      intro h; rw [h] at hpipe; exact absurd hpipe (by decide)
    have hi := holder_of_nextOp _ hwl s i o hn hne
    refine ⟨hi, fun j hji => ?_⟩
    cases hj : holder (programs reqs pipePath d) s j with
    | false => rfl
    | true => exact absurd (huniq j i hj hi) hji
  · intro i j hi hji
    cases hn : nextOp (programs reqs pipePath d) s j with
    | none => exact Or.inl rfl
    | some o =>
      right
      have hL : o = .Lock := by
        by_contra hne
        have hj := holder_of_nextOp _ hwl s j o hn hne
        exact hji (huniq j i hj hi)
      subst hL
      refine ⟨rfl, ?_⟩
      have hlocked : s.mu = true := hmu.mpr ⟨i, hi⟩
      unfold Sys.step
      rw [hn]
      simp [hlocked]

/-- C3 at a concrete state: the first of two requests has locked `mu`, opened the
pipe and set it non-blocking; the second is at its `mu.Lock()` and cannot move. -/
theorem concurrent_requests_exclusive_witness :
    nextOp (programs twoRequests "/tmp/pipe" 1000000000) ⟨true, [3, 0]⟩ 1 = none ∨
    (nextOp (programs twoRequests "/tmp/pipe" 1000000000) ⟨true, [3, 0]⟩ 1 = some .Lock ∧
      Sys.step (programs twoRequests "/tmp/pipe" 1000000000) ⟨true, [3, 0]⟩ 1 = none) :=
  (concurrent_requests_exclusive twoRequests "/tmp/pipe" 1000000000 [0, 0, 0] ⟨true, [3, 0]⟩
    (by decide)).2.2.2 0 1 (by decide) (by decide)

/-! ### The timeout as seconds and microseconds (C6) -/

set_option maxRecDepth 8000 in
/-- C6. The code for the flag value `--timeout -9207554738431630444`: line 136
computes `time.Duration(timeout)*time.Second`, which wraps around in `int64` to
the non-negative duration 8589934592999999488 ns (8589934592 whole seconds and
999999488 ns).  `Seconds()` rounds 8589934592.999999488 up to 8589934593.0 in
`float64`, so `Sec` is 8589934593, one more than the whole number of seconds,
and `Sec * 1000000 + Usec` is 8589934593999999, not the duration in
microseconds (8589934592999999).  This is the `Timeval` the handler hands to
`select`. -/
theorem mkTimeval_counterexample :
    flagDuration (-9207554738431630444) = 8589934592999999488 ∧
    mkTimeval (flagDuration (-9207554738431630444)) = ⟨8589934593, 999999⟩ ∧
    (8589934592999999488 : Int) / 1000000000 = 8589934592 ∧
    (8589934592999999488 : Int) / 1000 = 8589934592999999 ∧
    (8589934593 : Int) * 1000000 + 999999 = 8589934593999999 ∧
    (serveFromPipe worldReady "/tmp/pipe" (flagDuration (-9207554738431630444))
        ⟨"127.0.0.1:40000", "curl"⟩).1.trace =
      [.Lock, .OpenFile "/tmp/pipe" 2048 438, .SetNonblock 5 true,
       .Select 6 ⟨[32, 0, 0, 0, 0, 0, 0, 0, 0, 0, 0, 0, 0, 0, 0, 0], by decide⟩
         (some ⟨8589934593, 999999⟩),
       .ReadAll 5, .Close 5, .Unlock] := by
  decide

/-- The same rounding when the handler is built directly with the duration of
`2 ^ 24` seconds plus 999999999 nanoseconds, the smallest number of seconds at
which it occurs: `Sec` is 16777217 instead of 16777216. -/
theorem mkTimeval_rounds_up :
    mkTimeval 16777216999999999 = ⟨16777217, 999999⟩ ∧
    (16777216999999999 : Int) / 1000000000 = 16777216 := by
  decide

/-- Where the rounding of `Seconds()` does no harm: for every timeout duration
`d` with `0 ≤ d < 2 ^ 24` seconds, and for every non-negative `int64` duration
that is a whole number of seconds, the `Timeval` built by the handler and handed
to `select` has `Sec` equal to the whole number of seconds in `d` and `Usec`
equal to the remaining whole microseconds, so that `0 ≤ Usec < 1000000` and
`Sec * 1000000 + Usec` is `d` truncated to whole microseconds. -/
theorem mkTimeval_spec (d : Int) (h0 : 0 ≤ d) (hmax : d < 2 ^ 63)
    (h : d < 2 ^ 24 * 10 ^ 9 ∨ d % 10 ^ 9 = 0) :
    (mkTimeval d).Sec = d / 10 ^ 9 ∧
    (mkTimeval d).Usec = d / 1000 % 10 ^ 6 ∧
    0 ≤ (mkTimeval d).Usec ∧ (mkTimeval d).Usec < 10 ^ 6 ∧
    (mkTimeval d).Sec * 10 ^ 6 + (mkTimeval d).Usec = d / 1000 ∧
    (∀ (world : World) (pipePath : String) (r : Request) nfd rfds tv,
      Op.Select nfd rfds tv ∈ (serveFromPipe world pipePath d r).1.trace →
      tv = some (mkTimeval d)) := by
  lift d to Nat using h0
  have hmax' : d < 2 ^ 63 := by exact_mod_cast hmax
  have h' : d < 2 ^ 24 * 10 ^ 9 ∨ d % 10 ^ 9 = 0 := by
    rcases h with h | h
    · left; exact_mod_cast h
    · right; exact_mod_cast h
  have hsec : (mkTimeval (d : Int)).Sec = (d : Int) / 10 ^ 9 := by
    show (Seconds (d : Int)).toInt64 = _
    rw [Seconds_toInt64 d hmax' h']
    omega
  have husec : (mkTimeval (d : Int)).Usec = (d : Int) / 1000 % 10 ^ 6 := by
    show (Microseconds (d : Int)).tmod 1000000 = _
    unfold Microseconds
    rw [Int.tdiv_eq_ediv (by omega) (by norm_num),
      Int.tmod_eq_emod (by omega) (by norm_num)]
    norm_num
  refine ⟨hsec, husec, ?_, ?_, ?_, ?_⟩
  · rw [husec]; omega
  · rw [husec]; omega
  · rw [hsec, husec]; omega
  · intro world pipePath r nfd rfds tv hmem
    have hb := serveFromPipe_branch world pipePath (d : Int) r
    generalize serveFromPipe world pipePath (d : Int) r = res at hb hmem
    cases hb <;> simp_all

/-- The same at a concrete input: a timeout of 1.5 seconds. -/
theorem mkTimeval_spec_witness :
    (mkTimeval 1500000000).Sec = 1500000000 / 10 ^ 9 ∧
    (mkTimeval 1500000000).Usec = 1500000000 / 1000 % 10 ^ 6 ∧
    0 ≤ (mkTimeval 1500000000).Usec ∧ (mkTimeval 1500000000).Usec < 10 ^ 6 ∧
    (mkTimeval 1500000000).Sec * 10 ^ 6 + (mkTimeval 1500000000).Usec = 1500000000 / 1000 ∧
    (∀ (world : World) (pipePath : String) (r : Request) nfd rfds tv,
      Op.Select nfd rfds tv ∈ (serveFromPipe world pipePath 1500000000 r).1.trace →
      tv = some (mkTimeval 1500000000)) :=
  mkTimeval_spec 1500000000 (by norm_num) (by norm_num) (Or.inl (by norm_num))

/-- For every value of the `--timeout` flag whose product with `time.Second`
does not overflow, the `Timeval` is exact: `Sec` is the flag value and `Usec`
is 0. -/
theorem mkTimeval_of_flag (timeout : Int) (h0 : 0 ≤ timeout)
    (h : timeout * 1000000000 < 2 ^ 63) :
    flagDuration timeout = timeout * 1000000000 ∧
    mkTimeval (flagDuration timeout) = ⟨timeout, 0⟩ := by
  have hd : flagDuration timeout = timeout * 1000000000 := by
    unfold flagDuration wrapInt64
    omega
  refine ⟨hd, ?_⟩
  rw [hd]
  obtain ⟨hsec, husec, _⟩ := mkTimeval_spec (timeout * 1000000000) (by omega) h
    (Or.inr (by omega))
  have h1 : (mkTimeval (timeout * 1000000000)).Sec = timeout := by rw [hsec]; omega
  have h2 : (mkTimeval (timeout * 1000000000)).Usec = 0 := by rw [husec]; omega
  cases hm : mkTimeval (timeout * 1000000000) with
  | mk s u =>
    rw [hm] at h1 h2
    simp only at h1 h2
    rw [h1, h2]

/-! ### Zero timeout (C7) and error responses (C9) -/

/-- C7. With a timeout of 0 the handler hands `select` a present (non-nil)
`Timeval` with `Sec = 0` and `Usec = 0`, in every run that reaches the wait, and
if the wait then returns without reporting the descriptor readable the request
is answered with 404.  (That `select` returns at once for a zero `Timeval` is
the kernel's behaviour.) -/
theorem serveFromPipe_zero_timeout (world : World) (pipePath : String) (r : Request)
    (pipe : Nat) (rfds : FdSet) (hw : Waits world pipePath pipe rfds) :
    mkTimeval 0 = ⟨0, 0⟩ ∧
    Op.Select (uintptrToInt pipe + 1) rfds (some ⟨0, 0⟩) ∈
      (serveFromPipe world pipePath 0 r).1.trace ∧
    (∀ nfd s tv, Op.Select nfd s tv ∈ (serveFromPipe world pipePath 0 r).1.trace →
      tv = some ⟨0, 0⟩) ∧
    (∀ rfds1, world.Select (uintptrToInt pipe + 1) rfds (some ⟨0, 0⟩) = (rfds1, none) →
      FD_ISSET rfds1 (uintptrToInt pipe) = some false →
      (serveFromPipe world pipePath 0 r).1.w.status = some 404 ∧
      (serveFromPipe world pipePath 0 r).2 = .returned) := by
  have htv : mkTimeval 0 = ⟨0, 0⟩ := by decide
  refine ⟨htv, ?_, ?_, ?_⟩
  · rcases hsel : waitResult world 0 pipe rfds with ⟨rfds1, serr⟩
    cases serr with
    | some err => rw [run_selectFailure hw hsel, htv]; simp
    | none =>
      cases hi : FD_ISSET rfds1 (uintptrToInt pipe) with
      | none => rw [run_issetPanic hw hsel hi, htv]; simp
      | some b =>
        cases b with
        | false => rw [run_timeout hw hsel hi, htv]; simp
        | true =>
          rcases hread : world.ReadAll pipe with ⟨data, rerr⟩
          cases rerr with
          | some err => rw [run_readFailure hw hsel hi hread, htv]; simp
          | none =>
            cases hjson : unmarshalFails data with
            | true => rw [run_invalidJSON ⟨hw, hsel, hi, hread⟩ hjson, htv]; simp
            | false => rw [run_success ⟨hw, hsel, hi, hread⟩ hjson, htv]; simp
  · intro nfd s tv hmem
    have hb := serveFromPipe_branch world pipePath 0 r
    generalize serveFromPipe world pipePath 0 r = res at hb hmem
    cases hb <;> simp_all
  · intro rfds1 hsel hi
    have hsel1 : waitResult world 0 pipe rfds = (rfds1, none) := by
      unfold waitResult; rw [htv]; exact hsel
    rw [run_timeout hw hsel1 hi]
    exact ⟨errorResponse_status _ _, rfl⟩

/-- C7 at a concrete run: no writer, timeout 0, answer 404. -/
theorem serveFromPipe_zero_timeout_witness :
    mkTimeval 0 = ⟨0, 0⟩ ∧
    Op.Select (uintptrToInt 5 + 1) ⟨[32, 0, 0, 0, 0, 0, 0, 0, 0, 0, 0, 0, 0, 0, 0, 0], by decide⟩
      (some ⟨0, 0⟩) ∈ (serveFromPipe worldIdle "/tmp/pipe" 0 ⟨"127.0.0.1:40000", "curl"⟩).1.trace ∧
    (∀ nfd s tv, Op.Select nfd s tv ∈
        (serveFromPipe worldIdle "/tmp/pipe" 0 ⟨"127.0.0.1:40000", "curl"⟩).1.trace →
      tv = some ⟨0, 0⟩) ∧
    (∀ rfds1, worldIdle.Select (uintptrToInt 5 + 1)
        ⟨[32, 0, 0, 0, 0, 0, 0, 0, 0, 0, 0, 0, 0, 0, 0, 0], by decide⟩ (some ⟨0, 0⟩)
        = (rfds1, none) →
      FD_ISSET rfds1 (uintptrToInt 5) = some false →
      (serveFromPipe worldIdle "/tmp/pipe" 0 ⟨"127.0.0.1:40000", "curl"⟩).1.w.status = some 404 ∧
      (serveFromPipe worldIdle "/tmp/pipe" 0 ⟨"127.0.0.1:40000", "curl"⟩).2 = .returned) :=
  serveFromPipe_zero_timeout worldIdle "/tmp/pipe" ⟨"127.0.0.1:40000", "curl"⟩ 5
    ⟨[32, 0, 0, 0, 0, 0, 0, 0, 0, 0, 0, 0, 0, 0, 0, 0], by decide⟩ ⟨rfl, rfl, by decide⟩

/-- The text sent for an error status. -/
theorem error_body_of_status {world : World} {pipePath : String} {d : Int} {r : Request}
    {code : Nat} (hs : (serveFromPipe world pipePath d r).1.w.status = some code)
    (hc : code ≠ 200) :
    (code = 500 ∧ (serveFromPipe world pipePath d r).1.w =
        errorResponse "Internal Server Error" 500) ∨
    (code = 404 ∧ (serveFromPipe world pipePath d r).1.w = errorResponse "Not Found" 404) := by
  have hb := serveFromPipe_branch world pipePath d r
  generalize serveFromPipe world pipePath d r = res at hb hs ⊢
  cases hb <;>
    simp only [errorResponse_status, jsonResponse_status, ResponseWriter.fresh,
      Option.some.injEq] at hs <;>
    first
    | (left; exact ⟨hs.symm, rfl⟩)
    | (right; exact ⟨hs.symm, rfl⟩)
    | exact absurd hs.symm hc
    | exact absurd hs (by simp)

/-- C9. Two runs that end in an error with the same status code send the very
same response (status line, headers and body), whatever the pipe path, the
operating-system error or the bytes read were: the body is the fixed text
`Internal Server Error` for 500 and `Not Found` for 404, each followed by a
newline.  The error value appears only in the log line of the failing call. -/
theorem error_response_uniform (world1 world2 : World) (path1 path2 : String) (d1 d2 : Int)
    (r1 r2 : Request) (code : Nat)
    (h1 : (serveFromPipe world1 path1 d1 r1).1.w.status = some code)
    (h2 : (serveFromPipe world2 path2 d2 r2).1.w.status = some code)
    (hc : code ≠ 200) :
    (serveFromPipe world1 path1 d1 r1).1.w = (serveFromPipe world2 path2 d2 r2).1.w ∧
    ((code = 500 ∧ (serveFromPipe world1 path1 d1 r1).1.w.body =
        asciiBytes "Internal Server Error" ++ [0x0A]) ∨
     (code = 404 ∧ (serveFromPipe world1 path1 d1 r1).1.w.body =
        asciiBytes "Not Found" ++ [0x0A])) ∧
    (∀ err, world1.OpenFile path1 (O_RDONLY ||| O_NONBLOCK) 0o666 = .error err →
      (serveFromPipe world1 path1 d1 r1).1.log =
        [requestLine r1, errLine "Error opening pipe" err]) := by
  refine ⟨?_, ?_, ?_⟩
  · rcases error_body_of_status h1 hc with ⟨hc1, hw1⟩ | ⟨hc1, hw1⟩ <;>
      rcases error_body_of_status h2 hc with ⟨hc2, hw2⟩ | ⟨hc2, hw2⟩
    · rw [hw1, hw2]
    · omega
    · omega
    · rw [hw1, hw2]
  · rcases error_body_of_status h1 hc with ⟨hc1, hw1⟩ | ⟨hc1, hw1⟩
    · left; rw [hw1]; exact ⟨hc1, errorResponse_body _ _⟩
    · right; rw [hw1]; exact ⟨hc1, errorResponse_body _ _⟩
  · intro err ho
    rw [run_openFailure ho]

/-- C9 at two concrete runs: a removed pipe and a pipe holding `hello` both give
the same 500 response. -/
theorem error_response_uniform_witness :
    (serveFromPipe worldGone "/run/secret/pipe" 1000000000 ⟨"10.0.0.1:5", "a"⟩).1.w =
      (serveFromPipe worldHello "/tmp/pipe" 2000000000 ⟨"10.0.0.2:6", "b"⟩).1.w ∧
    (((500 : Nat) = 500 ∧
        (serveFromPipe worldGone "/run/secret/pipe" 1000000000 ⟨"10.0.0.1:5", "a"⟩).1.w.body =
          asciiBytes "Internal Server Error" ++ [0x0A]) ∨
     ((500 : Nat) = 404 ∧
        (serveFromPipe worldGone "/run/secret/pipe" 1000000000 ⟨"10.0.0.1:5", "a"⟩).1.w.body =
          asciiBytes "Not Found" ++ [0x0A])) ∧
    (∀ err, worldGone.OpenFile "/run/secret/pipe" (O_RDONLY ||| O_NONBLOCK) 0o666 = .error err →
      (serveFromPipe worldGone "/run/secret/pipe" 1000000000 ⟨"10.0.0.1:5", "a"⟩).1.log =
        [requestLine ⟨"10.0.0.1:5", "a"⟩, errLine "Error opening pipe" err]) :=
  error_response_uniform worldGone worldHello "/run/secret/pipe" "/tmp/pipe" 1000000000
    2000000000 ⟨"10.0.0.1:5", "a"⟩ ⟨"10.0.0.2:6", "b"⟩ 500 (by decide) (by decide) (by decide)

/-! ### `createNamedPipe` (C8) -/

/-- C8. `createNamedPipe(path)` first removes the entry at `path` and, unless the
removal fails for a reason other than absence, then creates a named pipe at
`path` with mode 0666 (438).  It returns an error exactly when the removal fails for
such a reason or the pipe creation fails; when the removal fails for such a
reason the pipe creation is not attempted and the removal's error is returned;
otherwise the result is that of the pipe creation. -/
theorem createNamedPipe_spec (world : World) (path : String) :
    ((createNamedPipe world path).2 ≠ none ↔
      ((∃ err, world.RemoveAll path = some err ∧ world.IsNotExist err = false) ∨
        world.Mkfifo path 438 ≠ none)) ∧
    (∀ err, world.RemoveAll path = some err → world.IsNotExist err = false →
      createNamedPipe world path = ([.RemoveAll path], some err)) ∧
    ((world.RemoveAll path = none ∨
        ∃ err, world.RemoveAll path = some err ∧ world.IsNotExist err = true) →
      createNamedPipe world path =
        ([.RemoveAll path, .Mkfifo path 438], world.Mkfifo path 438)) := by
  unfold createNamedPipe
  cases hrm : world.RemoveAll path with
  | none => simp
  | some err =>
    cases hne : world.IsNotExist err <;> simp [hne]

/-- C8 at a concrete run: the removal is refused, the error is returned and no
pipe is created. -/
theorem createNamedPipe_spec_witness :
    createNamedPipe worldDenied "/tmp/pipe" =
      ([.RemoveAll "/tmp/pipe"], some ⟨"permission denied"⟩) :=
  (createNamedPipe_spec worldDenied "/tmp/pipe").2.1 ⟨"permission denied"⟩ rfl rfl

end Pipey
